import Mathlib

/-! The user file-system API of BFS (`fs.c`).

A shallow embedding of `fsRead`, `fsWrite`, `fsSeek`, `fsTell` and `fsSize`
from `fs.c`, together with the collaborators they drive (open-file table,
inode/allocation service, block store).

* C `i32` values are `Int`.  `fsSeek`, `fsRead` and `fsWrite` evaluate the
  sums of the code exactly, so a statement about them is about runs in which
  no 32-bit overflow occurs.  `fsSeekI32` and `fsReadI32` are the same
  functions with every addition reduced into `INT_MIN .. INT_MAX` by
  `wrapI32`; `fsSeekI32_eq` and `fsReadI32_eq` show that they agree with
  `fsSeek` and `fsRead` whenever the sums stay in range.  `/` and `%` of C are
  `Int.tdiv` and `Int.tmod`.
* Memory buffers (`buf`, `bioBuf`, a disk block) are functions from an index
  to a byte.  A disk block only ever receives the indices `0 .. BYTESPERBLOCK-1`
  of the staging buffer it is written from.
* `for` loops are structural recursions on the number of passes that remain;
  the lemmas `fsReadInner_fuel` and `fsReadOuter_fuel` (`fsReadInnerI32_fuel`
  and `fsReadOuterI32_fuel` for the `i32` loops) show that the bound handed to
  them is never the reason a loop stops.
* The state keeps a log of the requests `fs.c` makes to its collaborators and
  of the `memcpy` into the staging block; `fsReadIdx` lists the copies of
  `fsRead`.  Statements about what the code asks for, and with which
  arguments, are statements about these.
-/

namespace BFS

/-! ## Constants -/

/-- Constants of the header `bfs.h`, which `fs.c` includes and which is not
among the sources; they are taken as parameters. -/
structure Config where
  /-- Size of a block in bytes. -/
  BYTESPERBLOCK : Int
  /-- Highest logical block number of a file. -/
  MAXFBN : Int
  /-- Highest inode number. -/
  MAXINUM : Int
  /-- Number of physical blocks. -/
  BLOCKSPERDISK : Int
  /-- Error code: bad inode number. -/
  EBADINUM : Int
  /-- Error code: bad logical block number. -/
  EBADFBN : Int
  /-- Error code: bad physical block number. -/
  EBADDBN : Int
  /-- Error code: bad cursor. -/
  EBADCURS : Int
  /-- Error code: bad seek mode. -/
  EBADWHENCE : Int

/-- Seek mode of `stdio.h`: absolute offset. -/
def SEEK_SET : Int := 0

/-- Seek mode of `stdio.h`: relative to the cursor. -/
def SEEK_CUR : Int := 1

/-- Seek mode of `stdio.h`: relative to the end of the file. -/
def SEEK_END : Int := 2

/-! ## State -/

/-- What `fs.c` asks of its collaborators, in the order it asks. -/
inductive Event where
  /-- Call `bfsFbnToDbn(inum, fbn)`. -/
  | fbnToDbn (inum fbn : Int)
  /-- Call `bfsAllocBlock(inum, fbn)`. -/
  | allocBlock (inum fbn : Int)
  /-- Call `bfsRead(inum, fbn, _)`. -/
  | read (inum fbn : Int)
  /-- Call `bioWrite(dbn, _)`. -/
  | bioWrite (dbn : Int)
  /-- Call `bfsSetCursor(inum, curs)`. -/
  | setCursor (inum curs : Int)
  /-- Call `memcpy(&bioBuf[off], _, len)` into the staging block. -/
  | memcpy (off len : Int)
  deriving DecidableEq, Repr

/-- Modelled from the spec: the state behind the collaborators of `fs.c`
(`bfs.c` and `bio.c` are not among the sources).  The open-file table binds a
descriptor to an inode and to an entry of `g_oft`, each entry holds a cursor;
the logical size is stored per inode; a logical block of a file maps to a
physical block once allocated; the block store holds one block per physical
block number.  The free list is the sequence of physical block numbers that the
allocation service hands out, `nAlloc` of which are already taken. -/
structure FS where
  /-- Inode bound to a descriptor (`descriptorToInode`). -/
  fdInum : Int → Int
  /-- Entry of `g_oft` bound to a descriptor. -/
  fdOfte : Int → Int
  /-- Entry of `g_oft` that `bfsFindOFTE` finds for an inode. -/
  inumOfte : Int → Int
  /-- The field `g_oft[ofte].curs`. -/
  oftCurs : Int → Int
  /-- Logical size of an inode. -/
  size : Int → Int
  /-- Physical block of a logical block of an inode, once allocated. -/
  fbnMap : Int → Int → Option Int
  /-- Content of a physical block. -/
  disk : Int → Int → Int
  /-- Physical block numbers in the order the allocation service hands them out. -/
  freeList : Nat → Int
  /-- Number of blocks handed out so far. -/
  nAlloc : Nat
  /-- Requests made by `fs.c` so far. -/
  log : List Event

/-- Append a request to the log. -/
def FS.record (s : FS) (e : Event) : FS :=
  { s with log := s.log ++ [e] }

/-! ## Collaborators -/

/-- Modelled from the spec: `bfsFdToInum` of `bfs.c`, the contract
`descriptorToInode(descriptor) -> inode`. -/
def bfsFdToInum (s : FS) (fd : Int) : Int :=
  s.fdInum fd

/-- Modelled from the spec: `bfsFindOFTE` of `bfs.c`, the open-file-table entry
found for an inode. -/
def bfsFindOFTE (s : FS) (inum : Int) : Int :=
  s.inumOfte inum

/-- Modelled from the spec: `bfsTell` of `bfs.c`, the contract
`getCursor(descriptor)`: the cursor of the entry bound to the descriptor. -/
def bfsTell (s : FS) (fd : Int) : Int :=
  s.oftCurs (s.fdOfte fd)

/-- Modelled from the spec: `bfsGetSize` of `bfs.c`, the contract
`getSize(inode)`. -/
def bfsGetSize (s : FS) (inum : Int) : Int :=
  s.size inum

/-- Modelled from the spec: `bfsSetCursor` of `bfs.c`.  `fs.c` passes it an
inode number, so the entry is the one `bfsFindOFTE` finds.  The open-file table
"stores and updates the current byte cursor ... and tracks the file's current
logical size", the size being "the highest byte offset ever written": the size
is raised to the new cursor when the cursor passes it. -/
def bfsSetCursor (s : FS) (inum newCurs : Int) : FS :=
  { s with
    oftCurs := Function.update s.oftCurs (bfsFindOFTE s inum) newCurs
    size := Function.update s.size inum (max (s.size inum) newCurs)
    log := s.log ++ [Event.setCursor inum newCurs] }

/-- Modelled from the spec: the allocation step shared by `allocateBlock` and
`resolveBlock`: take the next physical block of the free list and link it to
the logical block. -/
def allocLink (s : FS) (inum fbn : Int) : Int × FS :=
  (s.freeList s.nAlloc,
   { s with
     fbnMap := Function.update s.fbnMap inum
       (Function.update (s.fbnMap inum) fbn (some (s.freeList s.nAlloc)))
     nAlloc := s.nAlloc + 1 })

/-- Modelled from the spec: the contract `resolveBlock(inode, logicalBlockNum)
-> physicalBlockNum (allocates and links if unmapped)`. -/
def resolveBlock (s : FS) (inum fbn : Int) : Int × FS :=
  match s.fbnMap inum fbn with
  | some dbn => (dbn, s)
  | none => allocLink s inum fbn

/-- Modelled from the spec: `bfsFbnToDbn` of `bfs.c`, the contract
`resolveBlock`, as requested by `fs.c`. -/
def bfsFbnToDbn (s : FS) (inum fbn : Int) : Int × FS :=
  resolveBlock (s.record (Event.fbnToDbn inum fbn)) inum fbn

/-- Modelled from the spec: `bfsAllocBlock` of `bfs.c`, the contract
`allocateBlock(inode, logicalBlockNum) -> physicalBlockNum`, the "explicit
allocation variant": a new physical block is linked to the logical block
whether or not it was mapped. -/
def bfsAllocBlock (s : FS) (inum fbn : Int) : Int × FS :=
  allocLink (s.record (Event.allocBlock inum fbn)) inum fbn

/-- Modelled from the spec: `bioRead` of `bio.c`, the contract
`readBlock(physicalBlockNum) -> fixedSizeBuffer`. -/
def bioRead (s : FS) (dbn : Int) : Int → Int :=
  s.disk dbn

/-- Modelled from the spec: `bioWrite` of `bio.c`, the contract
`writeBlock(physicalBlockNum, fixedSizeBuffer)`: the block receives the
`BYTESPERBLOCK` bytes of the buffer. -/
def bioWrite (cfg : Config) (s : FS) (dbn : Int) (buf : Int → Int) : FS :=
  { s with
    disk := Function.update s.disk dbn
      (fun j => if 0 ≤ j ∧ j < cfg.BYTESPERBLOCK then buf j else s.disk dbn j)
    log := s.log ++ [Event.bioWrite dbn] }

/-- Modelled from the spec: `bfsRead` of `bfs.c`: a logical block is staged
"via the Inode/Allocation Service + Block Store", that is `resolveBlock`
followed by `readBlock`. -/
def bfsRead (s : FS) (inum fbn : Int) : (Int → Int) × FS :=
  (bioRead (resolveBlock (s.record (Event.read inum fbn)) inum fbn).2
     (resolveBlock (s.record (Event.read inum fbn)) inum fbn).1,
   (resolveBlock (s.record (Event.read inum fbn)) inum fbn).2)

/-- The call `memcpy(&dst[off], &src[0], len)`. -/
def memcpy (dst : Int → Int) (off : Int) (src : Int → Int) (len : Int) : Int → Int :=
  fun j => if off ≤ j ∧ j < off + len then src (j - off) else dst j

/-! ## `fs.c` -/

/-- Result of a call that may end in `FATAL`: either the call returns a value,
or the process aborts with an error code; both carry the state reached. -/
inductive Outcome where
  /-- The call returned `ret`. -/
  | returned (ret : Int) (s : FS)
  /-- The call ended in `FATAL(err)`. -/
  | aborted (err : Int) (s : FS)

/-- Function `fsTell` (fs.c, 149-151). -/
def fsTell (s : FS) (fd : Int) : Int :=
  bfsTell s fd

/-- Function `fsSize` (fs.c, 160-163). -/
def fsSize (s : FS) (fd : Int) : Int :=
  bfsGetSize s (bfsFdToInum s fd)

/-- Function `fsSeek` (fs.c, 119-142), the sums of lines 131 and 135 evaluated
exactly; `fsSeekI32` evaluates them in `i32`. -/
def fsSeek (cfg : Config) (s : FS) (fd offset whence : Int) : Outcome :=
  if offset < 0 then Outcome.aborted cfg.EBADCURS s
  else
    let ofte := bfsFindOFTE s (bfsFdToInum s fd)
    if whence = SEEK_SET then
      Outcome.returned 0 { s with oftCurs := Function.update s.oftCurs ofte offset }
    else if whence = SEEK_CUR then
      Outcome.returned 0
        { s with oftCurs := Function.update s.oftCurs ofte (s.oftCurs ofte + offset) }
    else if whence = SEEK_END then
      Outcome.returned 0
        { s with oftCurs := Function.update s.oftCurs ofte (fsSize s fd + offset) }
    else Outcome.aborted cfg.EBADWHENCE s

/-- Number of bytes the current pass of the loop of `fsWrite` copies
(fs.c, 191-192); `FBN` is the block number after `FBN += i`. -/
def writeCount (cfg : Config) (i FBN numb cursor : Int) : Int :=
  if numb + cursor < (FBN + i + 1) * cfg.BYTESPERBLOCK then numb
  else (FBN + i + 1) * cfg.BYTESPERBLOCK - cursor

/-- Staging block of a pass of `fsWrite` after the `memcpy` (fs.c, 190-193);
`s` is the state after `bfsFbnToDbn`. -/
def writeStage (cfg : Config) (buf : Int → Int) (i : Int) (s : FS)
    (Inum FBN numb cursor : Int) : Int → Int :=
  memcpy (bfsRead s Inum FBN).1 (cursor.tmod cfg.BYTESPERBLOCK) buf
    (writeCount cfg i FBN numb cursor)

/-- Lines 194-199 of `fsWrite`: the growth branch, the cursor update and the
final block write; `s` is the state after `bfsRead`, `DBN` the resolved
physical block. -/
def writeFlush (cfg : Config) (fd : Int) (s : FS) (Inum FBN DBN numb cursor bytesWrote : Int)
    (bioBuf : Int → Int) : FS :=
  if cursor + numb > fsSize s fd then
    bioWrite cfg
      (bfsSetCursor
        (bioWrite cfg (bfsAllocBlock (bfsAllocBlock s Inum (FBN + 1)).2 Inum FBN).2
          (bfsAllocBlock (bfsAllocBlock s Inum (FBN + 1)).2 Inum FBN).1 bioBuf)
        Inum (cursor + bytesWrote))
      (bfsAllocBlock s Inum (FBN + 1)).1 bioBuf
  else
    bioWrite cfg (bfsSetCursor s Inum (cursor + bytesWrote)) DBN bioBuf

/-- Body of the `for` loop of `fsWrite` (fs.c, 180-200), pass `i`, entered with
the loop variables `FBN` and `numb`: either an early `return` of an error code,
or the state and the loop variables after the pass. -/
def fsWriteBody (cfg : Config) (fd : Int) (buf : Int → Int) (i : Int) (s : FS)
    (FBN numb : Int) : Except (Int × FS) (FS × Int × Int) :=
  let cursor := bfsTell s fd
  let FBN := FBN + i
  let Inum := bfsFdToInum s fd
  let r := bfsFbnToDbn s Inum FBN
  if Inum > cfg.MAXINUM ∨ Inum < 0 then Except.error (cfg.EBADINUM, r.2)
  else if FBN > cfg.MAXFBN ∨ FBN < 0 then Except.error (cfg.EBADFBN, r.2)
  else if r.1 > cfg.BLOCKSPERDISK ∨ r.1 < 0 then Except.error (cfg.EBADDBN, r.2)
  else
    let bytesWrote := writeCount cfg i FBN numb cursor
    let bioBuf := writeStage cfg buf i r.2 Inum FBN numb cursor
    let s2 := ((bfsRead r.2 Inum FBN).2).record
      (Event.memcpy (cursor.tmod cfg.BYTESPERBLOCK) bytesWrote)
    Except.ok (writeFlush cfg fd s2 Inum FBN r.1 numb cursor bytesWrote bioBuf,
      FBN, numb - bytesWrote)

/-- The `for (int i = 0; i < limit; ++i)` loop of `fsWrite` with `k` passes
left, the next one being pass `i`. -/
def fsWriteLoop (cfg : Config) (fd : Int) (buf : Int → Int) :
    Nat → Int → FS → Int → Int → Int × FS
  | 0, _, s, _, _ => (0, s)
  | k + 1, i, s, FBN, numb =>
    match fsWriteBody cfg fd buf i s FBN numb with
    | Except.error r => r
    | Except.ok (s1, FBN1, numb1) => fsWriteLoop cfg fd buf k (i + 1) s1 FBN1 numb1

/-- Function `fsWrite` (fs.c, 172-203): the value returned and the state
reached. -/
def fsWrite (cfg : Config) (s : FS) (fd numb : Int) (buf : Int → Int) : Int × FS :=
  fsWriteLoop cfg fd buf (if numb > cfg.BYTESPERBLOCK then 2 else 1) 0 s
    ((bfsTell s fd).tdiv cfg.BYTESPERBLOCK) numb

/-- Condition of the inner `for` loop of `fsRead` (fs.c, 97-98), its sums
evaluated exactly; `readInnerCondI32` evaluates them in `i32`. -/
def readInnerCond (cfg : Config) (s : FS) (fd cursor numb ptr bytesRead : Int) : Prop :=
  ptr < cfg.BYTESPERBLOCK ∧ bytesRead < numb ∧
    bytesRead + cursor < fsSize s fd + 1 + (11 * cfg.BYTESPERBLOCK).tdiv 30

instance (cfg : Config) (s : FS) (fd cursor numb ptr bytesRead : Int) :
    Decidable (readInnerCond cfg s fd cursor numb ptr bytesRead) := by
  unfold readInnerCond; infer_instance

/-- Condition of the outer `for` loop of `fsRead` (fs.c, 94-95), its sums
evaluated exactly; `readOuterCondI32` evaluates them in `i32`. -/
def readOuterCond (cfg : Config) (s : FS) (fd cursor numb FBN bytesRead : Int) : Prop :=
  FBN < cfg.MAXFBN ∧ bytesRead < numb ∧ bytesRead + cursor < fsSize s fd + 1

instance (cfg : Config) (s : FS) (fd cursor numb FBN bytesRead : Int) :
    Decidable (readOuterCond cfg s fd cursor numb FBN bytesRead) := by
  unfold readOuterCond; infer_instance

/-- Inner `for` loop of `fsRead` (fs.c, 97-101) with at most `k` passes left:
the final `bytesRead` and caller buffer. -/
def fsReadInner (cfg : Config) (s : FS) (fd cursor numb : Int) (bioBuf : Int → Int) :
    Nat → Int → Int → (Int → Int) → Int × (Int → Int)
  | 0, _, bytesRead, castBuf => (bytesRead, castBuf)
  | k + 1, ptr, bytesRead, castBuf =>
    if readInnerCond cfg s fd cursor numb ptr bytesRead then
      fsReadInner cfg s fd cursor numb bioBuf k (ptr + 1) (bytesRead + 1)
        (Function.update castBuf bytesRead (bioBuf ptr))
    else (bytesRead, castBuf)

/-- Outer `for` loop of `fsRead` (fs.c, 94-103) with at most `k` passes left:
the final `bytesRead`, caller buffer and state. -/
def fsReadOuter (cfg : Config) (fd cursor numb Inum : Int) :
    Nat → FS → Int → Int → Int → (Int → Int) → Int × (Int → Int) × FS
  | 0, s, _, _, bytesRead, castBuf => (bytesRead, castBuf, s)
  | k + 1, s, FBN, initialPtr, bytesRead, castBuf =>
    if readOuterCond cfg s fd cursor numb FBN bytesRead then
      fsReadOuter cfg fd cursor numb Inum k (bfsRead s Inum FBN).2 (FBN + 1) 0
        (fsReadInner cfg (bfsRead s Inum FBN).2 fd cursor numb (bfsRead s Inum FBN).1
          (cfg.BYTESPERBLOCK - initialPtr).toNat initialPtr bytesRead castBuf).1
        (fsReadInner cfg (bfsRead s Inum FBN).2 fd cursor numb (bfsRead s Inum FBN).1
          (cfg.BYTESPERBLOCK - initialPtr).toNat initialPtr bytesRead castBuf).2
    else (bytesRead, castBuf, s)

/-- The loops of `fsRead` (fs.c, 88-103) run from the state `s`. -/
def fsReadLoops (cfg : Config) (s : FS) (fd numb : Int) (buf : Int → Int) :
    Int × (Int → Int) × FS :=
  fsReadOuter cfg fd (bfsTell s fd) numb (bfsFdToInum s fd)
    (cfg.MAXFBN - (bfsTell s fd).tdiv cfg.BYTESPERBLOCK).toNat s
    ((bfsTell s fd).tdiv cfg.BYTESPERBLOCK)
    (bfsTell s fd - cfg.BYTESPERBLOCK * (bfsTell s fd).tdiv cfg.BYTESPERBLOCK)
    0 buf

/-- Function `fsRead` (fs.c, 85-107): the value returned, the caller buffer
and the state reached, the sums of the loop conditions and of line 105
evaluated exactly; `fsReadI32` evaluates them in `i32`. -/
def fsRead (cfg : Config) (s : FS) (fd numb : Int) (buf : Int → Int) :
    Int × (Int → Int) × FS :=
  ((fsReadLoops cfg s fd numb buf).1, (fsReadLoops cfg s fd numb buf).2.1,
    bfsSetCursor (fsReadLoops cfg s fd numb buf).2.2 (bfsFdToInum s fd)
      (bfsTell s fd + (fsReadLoops cfg s fd numb buf).1))

/-- The state an outcome carries. -/
def Outcome.state : Outcome → FS
  | Outcome.returned _ s => s
  | Outcome.aborted _ s => s

/-- The value a call returned, if it returned. -/
def Outcome.ret : Outcome → Option Int
  | Outcome.returned r _ => some r
  | Outcome.aborted _ _ => none

/-! ## Predicates used in the statements -/

/-- A descriptor is open: the entry of `g_oft` bound to it is the one that
`bfsFindOFTE` finds for its inode, so that `bfsTell(fd)` reads the cursor that
`fs.c` writes through the inode number. -/
def OpenFd (s : FS) (fd : Int) : Prop :=
  s.fdOfte fd = bfsFindOFTE s (bfsFdToInum s fd)

instance (s : FS) (fd : Int) : Decidable (OpenFd s fd) := by
  unfold OpenFd; infer_instance

/-- What the read path leaves alone: the open-file table, the sizes, the disk,
and every mapping that exists. -/
structure ReadFrame (s s1 : FS) : Prop where
  fdInum : s1.fdInum = s.fdInum
  fdOfte : s1.fdOfte = s.fdOfte
  inumOfte : s1.inumOfte = s.inumOfte
  oftCurs : s1.oftCurs = s.oftCurs
  size : s1.size = s.size
  disk : s1.disk = s.disk
  mapped : ∀ inum fbn d, s.fbnMap inum fbn = some d → s1.fbnMap inum fbn = some d

/-- The first `br` bytes of the caller buffer are the bytes of the file from
offset `c` on: byte `i` is at position `(c + i) % BYTESPERBLOCK` of the physical
block mapped to logical block `(c + i) / BYTESPERBLOCK`. -/
def Delivered (cfg : Config) (s : FS) (Inum c br : Int) (buf : Int → Int) : Prop :=
  ∀ i, 0 ≤ i → i < br →
    ∃ d, s.fbnMap Inum ((c + i) / cfg.BYTESPERBLOCK) = some d ∧
      buf i = s.disk d ((c + i) % cfg.BYTESPERBLOCK)

/-! ## Concrete instances -/

/-- The constants with a block of 512 bytes. -/
def cfg512 : Config :=
  { BYTESPERBLOCK := 512, MAXFBN := 260, MAXINUM := 7, BLOCKSPERDISK := 100,
    EBADINUM := -1, EBADFBN := -2, EBADDBN := -3, EBADCURS := -4, EBADWHENCE := -5 }

/-- A state in which descriptor `fd` is bound to inode `fd` and entry `fd`,
every file has the given size and cursor, no block is mapped, the disk is
zeroed and the free list hands out the blocks 10, 11, 12, ... -/
def emptyFS (size curs : Int) : FS :=
  { fdInum := fun fd => fd, fdOfte := fun fd => fd, inumOfte := fun inum => inum,
    oftCurs := fun _ => curs, size := fun _ => size,
    fbnMap := fun _ _ => none, disk := fun _ _ => 0,
    freeList := fun n => 10 + (n : Int), nAlloc := 0, log := [] }

/-- A file just created: size 0, cursor 0, nothing allocated. -/
def freshFS : FS := emptyFS 0 0

/-- Caller data whose byte at index `i` is `i % 101`. -/
def sampleData : Int → Int := fun i => i % 101

/-- Caller data whose every byte is 7. -/
def sevens : Int → Int := fun _ => 7

/-- A zeroed caller buffer. -/
def zeroBuf : Int → Int := fun _ => 0

/-- Write `N` bytes of `data` on descriptor `fd`, seek to offset 0, read `N`
bytes into `buf`: the result of the read. -/
def writeSeekRead (cfg : Config) (s : FS) (fd N : Int) (data buf : Int → Int) :
    Int × (Int → Int) × FS :=
  fsRead cfg (fsSeek cfg (fsWrite cfg s fd N data).2 fd 0 SEEK_SET).state fd N buf

/-- The fresh file after a write of 100 bytes: size 100, cursor 100. -/
def file100 : FS := (fsWrite cfg512 freshFS 0 100 sampleData).2

/-- The file of 100 bytes with the cursor back at offset 0. -/
def file100AtStart : FS := (fsSeek cfg512 file100 0 0 SEEK_SET).state

/-- The fresh file after a write of one block of 512 bytes and a seek to
offset 10. -/
def oneBlockAt10 : FS :=
  (fsSeek cfg512 (fsWrite cfg512 freshFS 0 512 sampleData).2 0 10 SEEK_SET).state

/-- The fresh file after a write of 513 bytes (two blocks) and a seek to offset
500, twelve bytes before the end of block 0. -/
def twoBlocksAt500 : FS :=
  (fsSeek cfg512 (fsWrite cfg512 freshFS 0 513 sampleData).2 0 500 SEEK_SET).state

/-- What an operation on a descriptor leaves alone in the open-file table: the
bindings, and the cursor of every entry but `slot`. -/
structure CursorFrame (s s1 : FS) (slot : Int) : Prop where
  fdInum : s1.fdInum = s.fdInum
  fdOfte : s1.fdOfte = s.fdOfte
  inumOfte : s1.inumOfte = s.inumOfte
  others : ∀ e, e ≠ slot → s1.oftCurs e = s.oftCurs e

/-- An open-file table in which every descriptor is bound to inode 0 and to the
one entry 0 that `bfsFindOFTE` finds for inode 0; the file is empty. -/
def sharedFS : FS :=
  { fdInum := fun _ => 0, fdOfte := fun _ => 0, inumOfte := fun _ => 0,
    oftCurs := fun _ => 0, size := fun _ => 0,
    fbnMap := fun _ _ => none, disk := fun _ _ => 0,
    freeList := fun n => 10 + (n : Int), nAlloc := 0, log := [] }

/-- An open-file table in which every descriptor is bound to inode 0 and
descriptor `fd` has its own entry `fd`, while `bfsFindOFTE` finds entry 1 for
inode 0; the file is empty. -/
def ownEntryFS : FS :=
  { fdInum := fun _ => 0, fdOfte := fun fd => fd, inumOfte := fun _ => 1,
    oftCurs := fun _ => 0, size := fun _ => 0,
    fbnMap := fun _ _ => none, disk := fun _ _ => 0,
    freeList := fun n => 10 + (n : Int), nAlloc := 0, log := [] }

/-- The requests made between the state `s` and a later state `s1`. -/
def newEvents (s s1 : FS) : List Event :=
  s1.log.drop s.log.length

/-- The fresh file after a seek to the first byte of logical block 261, one
past `MAXFBN = 260`. -/
def pastLastBlock : FS := (fsSeek cfg512 freshFS 0 133632 SEEK_SET).state

/-- The fresh file after a seek to the first byte of logical block
`MAXFBN = 260`. -/
def atLastBlock : FS := (fsSeek cfg512 freshFS 0 133120 SEEK_SET).state

/-- The copies `castBuf[bytesRead] = bioBuf[ptr]` made by the inner loop of
`fsRead` (fs.c, 97-101) with at most `k` passes left, as pairs
`(ptr, bytesRead)` in the order they are made. -/
def fsReadInnerIdx (cfg : Config) (s : FS) (fd cursor numb : Int) :
    Nat → Int → Int → List (Int × Int)
  | 0, _, _ => []
  | k + 1, ptr, bytesRead =>
    if readInnerCond cfg s fd cursor numb ptr bytesRead then
      (ptr, bytesRead) :: fsReadInnerIdx cfg s fd cursor numb k (ptr + 1) (bytesRead + 1)
    else []

/-- The copies made by the loops of `fsRead` (fs.c, 94-103) with at most `k`
passes of the outer loop left, as pairs `(ptr, bytesRead)` in the order they
are made. -/
def fsReadOuterIdx (cfg : Config) (fd cursor numb Inum : Int) :
    Nat → FS → Int → Int → Int → (Int → Int) → List (Int × Int)
  | 0, _, _, _, _, _ => []
  | k + 1, s, FBN, initialPtr, bytesRead, castBuf =>
    if readOuterCond cfg s fd cursor numb FBN bytesRead then
      fsReadInnerIdx cfg (bfsRead s Inum FBN).2 fd cursor numb
          (cfg.BYTESPERBLOCK - initialPtr).toNat initialPtr bytesRead ++
        fsReadOuterIdx cfg fd cursor numb Inum k (bfsRead s Inum FBN).2 (FBN + 1) 0
          (fsReadInner cfg (bfsRead s Inum FBN).2 fd cursor numb (bfsRead s Inum FBN).1
            (cfg.BYTESPERBLOCK - initialPtr).toNat initialPtr bytesRead castBuf).1
          (fsReadInner cfg (bfsRead s Inum FBN).2 fd cursor numb (bfsRead s Inum FBN).1
            (cfg.BYTESPERBLOCK - initialPtr).toNat initialPtr bytesRead castBuf).2
    else []

/-- The copies made by a call of `fsRead`, as pairs `(ptr, bytesRead)`: index
`ptr` of the staging block is read, index `bytesRead` of the caller buffer is
written. -/
def fsReadIdx (cfg : Config) (s : FS) (fd numb : Int) (buf : Int → Int) : List (Int × Int) :=
  fsReadOuterIdx cfg fd (bfsTell s fd) numb (bfsFdToInum s fd)
    (cfg.MAXFBN - (bfsTell s fd).tdiv cfg.BYTESPERBLOCK).toNat s
    ((bfsTell s fd).tdiv cfg.BYTESPERBLOCK)
    (bfsTell s fd - cfg.BYTESPERBLOCK * (bfsTell s fd).tdiv cfg.BYTESPERBLOCK)
    0 buf

/-- The file of 100 bytes with the cursor at offset 150, past the size. -/
def file100At150 : FS := (fsSeek cfg512 file100 0 150 SEEK_SET).state

/-- The fresh file after writes of 512 and 88 bytes (size 600, two blocks) and
a seek to offset 500, twelve bytes before the end of block 0. -/
def file600At500 : FS :=
  (fsSeek cfg512
    (fsWrite cfg512 (fsWrite cfg512 freshFS 0 512 sampleData).2 0 88 sampleData).2
    0 500 SEEK_SET).state

/-! ## The `i32` additions of `fsSeek` and of the loop bounds of `fsRead` -/

/-- Greatest value of C `i32`. -/
def INT_MAX : Int := 2147483647

/-- Least value of C `i32`. -/
def INT_MIN : Int := -2147483648

/-- Result of an `i32` addition whose exact sum is `x`: the sum reduced modulo
`2 ^ 32` into `INT_MIN .. INT_MAX` (two's complement). -/
def wrapI32 (x : Int) : Int :=
  (x + 2147483648) % 4294967296 - 2147483648

/-- Function `fsSeek` (fs.c, 119-142) with its two additions, `curs += offset`
(line 131) and `end + offset` (line 135), evaluated in `i32`.  The embedding
`fsSeek` evaluates them exactly; `fsSeekI32_eq` shows that the two agree
whenever the sum stays in `INT_MIN .. INT_MAX`. -/
def fsSeekI32 (cfg : Config) (s : FS) (fd offset whence : Int) : Outcome :=
  if offset < 0 then Outcome.aborted cfg.EBADCURS s
  else
    let ofte := bfsFindOFTE s (bfsFdToInum s fd)
    if whence = SEEK_SET then
      Outcome.returned 0 { s with oftCurs := Function.update s.oftCurs ofte offset }
    else if whence = SEEK_CUR then
      Outcome.returned 0
        { s with oftCurs :=
            Function.update s.oftCurs ofte (wrapI32 (s.oftCurs ofte + offset)) }
    else if whence = SEEK_END then
      Outcome.returned 0
        { s with oftCurs := Function.update s.oftCurs ofte (wrapI32 (fsSize s fd + offset)) }
    else Outcome.aborted cfg.EBADWHENCE s

/-- Condition of the inner `for` loop of `fsRead` (fs.c, 97-98) with the sums
`bytesRead+cursor` and `fsSize(fd)+1+11*BYTESPERBLOCK/30` evaluated in `i32`. -/
def readInnerCondI32 (cfg : Config) (s : FS) (fd cursor numb ptr bytesRead : Int) : Prop :=
  ptr < cfg.BYTESPERBLOCK ∧ bytesRead < numb ∧
    wrapI32 (bytesRead + cursor) <
      wrapI32 (wrapI32 (fsSize s fd + 1) + (wrapI32 (11 * cfg.BYTESPERBLOCK)).tdiv 30)

instance (cfg : Config) (s : FS) (fd cursor numb ptr bytesRead : Int) :
    Decidable (readInnerCondI32 cfg s fd cursor numb ptr bytesRead) := by
  unfold readInnerCondI32; infer_instance

/-- Condition of the outer `for` loop of `fsRead` (fs.c, 94-95) with the sums
`bytesRead+cursor` and `fsSize(fd)+1` evaluated in `i32`. -/
def readOuterCondI32 (cfg : Config) (s : FS) (fd cursor numb FBN bytesRead : Int) : Prop :=
  FBN < cfg.MAXFBN ∧ bytesRead < numb ∧
    wrapI32 (bytesRead + cursor) < wrapI32 (fsSize s fd + 1)

instance (cfg : Config) (s : FS) (fd cursor numb FBN bytesRead : Int) :
    Decidable (readOuterCondI32 cfg s fd cursor numb FBN bytesRead) := by
  unfold readOuterCondI32; infer_instance

/-- Inner `for` loop of `fsRead` (fs.c, 97-101) with its condition evaluated in
`i32`, at most `k` passes left. -/
def fsReadInnerI32 (cfg : Config) (s : FS) (fd cursor numb : Int) (bioBuf : Int → Int) :
    Nat → Int → Int → (Int → Int) → Int × (Int → Int)
  | 0, _, bytesRead, castBuf => (bytesRead, castBuf)
  | k + 1, ptr, bytesRead, castBuf =>
    if readInnerCondI32 cfg s fd cursor numb ptr bytesRead then
      fsReadInnerI32 cfg s fd cursor numb bioBuf k (ptr + 1) (bytesRead + 1)
        (Function.update castBuf bytesRead (bioBuf ptr))
    else (bytesRead, castBuf)

/-- Outer `for` loop of `fsRead` (fs.c, 94-103) with the conditions of both
loops evaluated in `i32`, at most `k` passes left. -/
def fsReadOuterI32 (cfg : Config) (fd cursor numb Inum : Int) :
    Nat → FS → Int → Int → Int → (Int → Int) → Int × (Int → Int) × FS
  | 0, s, _, _, bytesRead, castBuf => (bytesRead, castBuf, s)
  | k + 1, s, FBN, initialPtr, bytesRead, castBuf =>
    if readOuterCondI32 cfg s fd cursor numb FBN bytesRead then
      fsReadOuterI32 cfg fd cursor numb Inum k (bfsRead s Inum FBN).2 (FBN + 1) 0
        (fsReadInnerI32 cfg (bfsRead s Inum FBN).2 fd cursor numb (bfsRead s Inum FBN).1
          (cfg.BYTESPERBLOCK - initialPtr).toNat initialPtr bytesRead castBuf).1
        (fsReadInnerI32 cfg (bfsRead s Inum FBN).2 fd cursor numb (bfsRead s Inum FBN).1
          (cfg.BYTESPERBLOCK - initialPtr).toNat initialPtr bytesRead castBuf).2
    else (bytesRead, castBuf, s)

/-- The loops of `fsRead` (fs.c, 88-103) with their conditions evaluated in
`i32`, run from the state `s`. -/
def fsReadLoopsI32 (cfg : Config) (s : FS) (fd numb : Int) (buf : Int → Int) :
    Int × (Int → Int) × FS :=
  fsReadOuterI32 cfg fd (bfsTell s fd) numb (bfsFdToInum s fd)
    (cfg.MAXFBN - (bfsTell s fd).tdiv cfg.BYTESPERBLOCK).toNat s
    ((bfsTell s fd).tdiv cfg.BYTESPERBLOCK)
    (bfsTell s fd - cfg.BYTESPERBLOCK * (bfsTell s fd).tdiv cfg.BYTESPERBLOCK)
    0 buf

/-- Function `fsRead` (fs.c, 85-107) with the sums of its loop conditions and
of its cursor update (line 105) evaluated in `i32`.  The other arithmetic of
the function cannot leave `INT_MIN .. INT_MAX` on `i32` values: `FBN++` runs
below `MAXFBN`, `ptr++` below `BYTESPERBLOCK`, `bytesRead++` below `numb`, and
`cursor - BYTESPERBLOCK * FBN` is the remainder of `cursor`.  The embedding
`fsRead` evaluates every sum exactly; `fsReadI32_eq` shows that the two agree
whenever `fsSize(fd)+1+11*BYTESPERBLOCK/30` and the cursor stay in
`INT_MIN .. INT_MAX`. -/
def fsReadI32 (cfg : Config) (s : FS) (fd numb : Int) (buf : Int → Int) :
    Int × (Int → Int) × FS :=
  ((fsReadLoopsI32 cfg s fd numb buf).1, (fsReadLoopsI32 cfg s fd numb buf).2.1,
    bfsSetCursor (fsReadLoopsI32 cfg s fd numb buf).2.2 (bfsFdToInum s fd)
      (wrapI32 (bfsTell s fd + (fsReadLoopsI32 cfg s fd numb buf).1)))

/-- The fresh file after a seek to offset 2147483548, a read of 1 byte there
(which returns 0 and leaves the size at the cursor) and a seek back to 0:
size 2147483548, cursor 0. -/
def hugeFile : FS :=
  (fsSeekI32 cfg512
    (fsReadI32 cfg512 (fsSeekI32 cfg512 freshFS 0 2147483548 SEEK_SET).state 0 1 zeroBuf).2.2
    0 0 SEEK_SET).state

/-- The file of 100 bytes with the cursor at offset 2147483647, the greatest
`i32`. -/
def file100AtMax : FS := (fsSeekI32 cfg512 file100 0 2147483647 SEEK_SET).state

/-! ## The read path: what it leaves alone -/

/-- A state frames itself. -/
theorem ReadFrame.refl (s : FS) : ReadFrame s s :=
  ⟨rfl, rfl, rfl, rfl, rfl, rfl, fun _ _ _ h => h⟩

/-- Frames compose. -/
theorem ReadFrame.trans {s s1 s2 : FS} (h1 : ReadFrame s s1) (h2 : ReadFrame s1 s2) :
    ReadFrame s s2 :=
  ⟨h2.fdInum.trans h1.fdInum, h2.fdOfte.trans h1.fdOfte, h2.inumOfte.trans h1.inumOfte,
    h2.oftCurs.trans h1.oftCurs, h2.size.trans h1.size, h2.disk.trans h1.disk,
    fun i f d h => h2.mapped i f d (h1.mapped i f d h)⟩

/-- After the allocation step the logical block is linked to the block handed out. -/
theorem allocLink_map (s : FS) (inum fbn : Int) :
    (allocLink s inum fbn).2.fbnMap inum fbn = some (allocLink s inum fbn).1 := by
  simp [allocLink]

/-- After `resolveBlock` the logical block is mapped to the block returned. -/
theorem resolveBlock_map (s : FS) (inum fbn : Int) :
    (resolveBlock s inum fbn).2.fbnMap inum fbn = some (resolveBlock s inum fbn).1 := by
  unfold resolveBlock
  cases h : s.fbnMap inum fbn with
  | none => simp [allocLink]
  | some d => simpa using h

/-- On a mapped logical block `resolveBlock` is a lookup. -/
theorem resolveBlock_of_mapped (s : FS) (inum fbn d : Int) (h : s.fbnMap inum fbn = some d) :
    resolveBlock s inum fbn = (d, s) := by
  unfold resolveBlock; rw [h]

/-- The service `resolveBlock` changes nothing but the mapping of an unmapped block. -/
theorem resolveBlock_frame (s : FS) (inum fbn : Int) :
    ReadFrame s (resolveBlock s inum fbn).2 := by
  unfold resolveBlock
  cases h : s.fbnMap inum fbn with
  | some d => exact ReadFrame.refl s
  | none =>
    refine ⟨rfl, rfl, rfl, rfl, rfl, rfl, ?_⟩
    intro i f d hd
    by_cases hi : i = inum
    · subst hi
      by_cases hf : f = fbn
      · subst hf; rw [h] at hd; cases hd
      · simp [allocLink, Function.update_noteq hf, hd]
    · simp [allocLink, Function.update_noteq hi, hd]

/-- The call `bfsRead` changes nothing but the mapping of an unmapped block and the log. -/
theorem bfsRead_frame (s : FS) (inum fbn : Int) : ReadFrame s (bfsRead s inum fbn).2 := by
  have h := resolveBlock_frame (s.record (Event.read inum fbn)) inum fbn
  exact ⟨h.fdInum, h.fdOfte, h.inumOfte, h.oftCurs, h.size, h.disk, h.mapped⟩

/-- The call `bfsRead` stages the content of the physical block the logical block is
mapped to afterwards. -/
theorem bfsRead_map (s : FS) (inum fbn : Int) :
    ∃ d, (bfsRead s inum fbn).2.fbnMap inum fbn = some d ∧
      (bfsRead s inum fbn).1 = s.disk d := by
  refine ⟨(resolveBlock (s.record (Event.read inum fbn)) inum fbn).1, resolveBlock_map _ _ _, ?_⟩
  have h := resolveBlock_frame (s.record (Event.read inum fbn)) inum fbn
  simp only [bfsRead, bioRead, h.disk]
  rfl

/-- On a mapped logical block `bfsRead` stages the content of its physical block. -/
theorem bfsRead_of_mapped (s : FS) (inum fbn d : Int) (h : s.fbnMap inum fbn = some d) :
    (bfsRead s inum fbn).1 = s.disk d := by
  have h1 : (s.record (Event.read inum fbn)).fbnMap inum fbn = some d := h
  simp only [bfsRead, resolveBlock_of_mapped _ _ _ _ h1, bioRead]
  rfl

/-- The size seen through a descriptor is the same across a frame. -/
theorem ReadFrame.fsSize {s s1 : FS} (h : ReadFrame s s1) (fd : Int) :
    fsSize s1 fd = fsSize s fd := by
  simp [BFS.fsSize, bfsGetSize, bfsFdToInum, h.size, h.fdInum]

/-- The cursor of a descriptor is the same across a frame. -/
theorem ReadFrame.bfsTell {s s1 : FS} (h : ReadFrame s s1) (fd : Int) :
    bfsTell s1 fd = bfsTell s fd := by
  simp [BFS.bfsTell, h.oftCurs, h.fdOfte]

/-! ## The loops of `fsRead` -/

/-- The inner loop of `fsRead` makes some number `n` of passes: it appends to the
caller buffer the `n` bytes of the staging block from `ptr` on, its condition
holds before each pass, and it stops because the bound is used up or because
the condition fails. -/
theorem fsReadInner_spec (cfg : Config) (s : FS) (fd c numb : Int) (bio : Int → Int) :
    ∀ (k : Nat) (ptr br : Int) (buf : Int → Int),
      ∃ n : Nat, n ≤ k ∧
        (fsReadInner cfg s fd c numb bio k ptr br buf).1 = br + n ∧
        (∀ i, i < br → (fsReadInner cfg s fd c numb bio k ptr br buf).2 i = buf i) ∧
        (∀ t : Nat, t < n →
          (fsReadInner cfg s fd c numb bio k ptr br buf).2 (br + t) = bio (ptr + t)) ∧
        (∀ t : Nat, t < n → readInnerCond cfg s fd c numb (ptr + t) (br + t)) ∧
        (n = k ∨ ¬ readInnerCond cfg s fd c numb (ptr + n) (br + n)) := by
  intro k
  induction k with
  | zero =>
    intro ptr br buf
    exact ⟨0, le_refl _, by simp [fsReadInner], fun _ _ => rfl,
      fun t ht => absurd ht (Nat.not_lt_zero t), fun t ht => absurd ht (Nat.not_lt_zero t),
      Or.inl rfl⟩
  | succ k ih =>
    intro ptr br buf
    by_cases hc : readInnerCond cfg s fd c numb ptr br
    · obtain ⟨n, hn, h1, h2, h3, h4, h5⟩ :=
        ih (ptr + 1) (br + 1) (Function.update buf br (bio ptr))
      have hstep : fsReadInner cfg s fd c numb bio (k + 1) ptr br buf =
          fsReadInner cfg s fd c numb bio k (ptr + 1) (br + 1)
            (Function.update buf br (bio ptr)) := by
        simp [fsReadInner, hc]
      rw [hstep]
      refine ⟨n + 1, Nat.succ_le_succ hn, ?_, ?_, ?_, ?_, ?_⟩
      · rw [h1]; push_cast; ring
      · intro i hi
        rw [h2 i (by omega), Function.update_noteq (by omega)]
      · intro t ht
        cases t with
        | zero =>
          simp only [Nat.cast_zero, add_zero]
          rw [h2 br (by omega), Function.update_same]
        | succ t =>
          have := h3 t (by omega)
          have e1 : br + ((t + 1 : Nat) : Int) = br + 1 + (t : Int) := by push_cast; ring
          have e2 : ptr + ((t + 1 : Nat) : Int) = ptr + 1 + (t : Int) := by push_cast; ring
          rw [e1, e2]; exact this
      · intro t ht
        cases t with
        | zero => simpa using hc
        | succ t =>
          have := h4 t (by omega)
          have e1 : br + ((t + 1 : Nat) : Int) = br + 1 + (t : Int) := by push_cast; ring
          have e2 : ptr + ((t + 1 : Nat) : Int) = ptr + 1 + (t : Int) := by push_cast; ring
          rw [e1, e2]; exact this
      · rcases h5 with h5 | h5
        · exact Or.inl (by omega)
        · right
          have e1 : br + ((n + 1 : Nat) : Int) = br + 1 + (n : Int) := by push_cast; ring
          have e2 : ptr + ((n + 1 : Nat) : Int) = ptr + 1 + (n : Int) := by push_cast; ring
          rw [e1, e2]; exact h5
    · refine ⟨0, Nat.zero_le _, by simp [fsReadInner, hc], ?_, ?_, ?_, ?_⟩
      · intro i _; simp [fsReadInner, hc]
      · intro t ht; exact absurd ht (Nat.not_lt_zero t)
      · intro t ht; exact absurd ht (Nat.not_lt_zero t)
      · right; simpa using hc

/-- The inner loop of `fsRead` does not decrease `bytesRead` and does not take it
past `numb`. -/
theorem fsReadInner_count (cfg : Config) (s : FS) (fd c numb : Int) (bio : Int → Int)
    (k : Nat) (ptr br : Int) (buf : Int → Int) :
    br ≤ (fsReadInner cfg s fd c numb bio k ptr br buf).1 ∧
      (fsReadInner cfg s fd c numb bio k ptr br buf).1 ≤ max br numb := by
  obtain ⟨n, _, h1, _, _, h4, _⟩ := fsReadInner_spec cfg s fd c numb bio k ptr br buf
  rw [h1]
  refine ⟨by omega, ?_⟩
  cases n with
  | zero => simp
  | succ n =>
    have := (h4 n (by omega)).2.1
    apply le_max_of_le_right
    push_cast; omega

/-- The outer loop of `fsRead` frames the state. -/
theorem fsReadOuter_frame (cfg : Config) (fd c numb Inum : Int) :
    ∀ (k : Nat) (s : FS) (FBN ip br : Int) (buf : Int → Int),
      ReadFrame s (fsReadOuter cfg fd c numb Inum k s FBN ip br buf).2.2 := by
  intro k
  induction k with
  | zero => intro s _ _ _ _; exact ReadFrame.refl s
  | succ k ih =>
    intro s FBN ip br buf
    by_cases hc : readOuterCond cfg s fd c numb FBN br
    · simp only [fsReadOuter, hc, if_true]
      exact (bfsRead_frame s Inum FBN).trans (ih _ _ _ _ _)
    · simp only [fsReadOuter, hc, if_false]
      exact ReadFrame.refl s

/-- The outer loop of `fsRead` does not decrease `bytesRead` and does not take it
past `numb`. -/
theorem fsReadOuter_count (cfg : Config) (fd c numb Inum : Int) :
    ∀ (k : Nat) (s : FS) (FBN ip br : Int) (buf : Int → Int),
      br ≤ (fsReadOuter cfg fd c numb Inum k s FBN ip br buf).1 ∧
        (fsReadOuter cfg fd c numb Inum k s FBN ip br buf).1 ≤ max br numb := by
  intro k
  induction k with
  | zero => intro s _ _ br _; exact ⟨le_refl _, le_max_left _ _⟩
  | succ k ih =>
    intro s FBN ip br buf
    by_cases hc : readOuterCond cfg s fd c numb FBN br
    · simp only [fsReadOuter, hc, if_true]
      have h1 := fsReadInner_count cfg (bfsRead s Inum FBN).2 fd c numb (bfsRead s Inum FBN).1
        (cfg.BYTESPERBLOCK - ip).toNat ip br buf
      have h2 := ih (bfsRead s Inum FBN).2 (FBN + 1) 0
        (fsReadInner cfg (bfsRead s Inum FBN).2 fd c numb (bfsRead s Inum FBN).1
          (cfg.BYTESPERBLOCK - ip).toNat ip br buf).1
        (fsReadInner cfg (bfsRead s Inum FBN).2 fd c numb (bfsRead s Inum FBN).1
          (cfg.BYTESPERBLOCK - ip).toNat ip br buf).2
      refine ⟨le_trans h1.1 h2.1, le_trans h2.2 ?_⟩
      exact max_le h1.2 (le_max_right _ _)
    · simp only [fsReadOuter, hc, if_false]
      exact ⟨le_refl _, le_max_left _ _⟩

/-- The loops of `fsRead` frame the state. -/
theorem fsRead_frame (cfg : Config) (s : FS) (fd numb : Int) (buf : Int → Int) :
    ReadFrame s (fsReadLoops cfg s fd numb buf).2.2 :=
  fsReadOuter_frame cfg fd _ numb _ _ s _ _ _ buf

/-- What was delivered stays delivered across a frame. -/
theorem Delivered.frame {cfg : Config} {s s1 : FS} {Inum c br : Int} {buf : Int → Int}
    (h : Delivered cfg s Inum c br buf) (hf : ReadFrame s s1) :
    Delivered cfg s1 Inum c br buf := by
  intro i h0 hi
  obtain ⟨d, hd, hb⟩ := h i h0 hi
  exact ⟨d, hf.mapped _ _ _ hd, by rw [hf.disk]; exact hb⟩

/-- The slack `11 * BYTESPERBLOCK / 30` of the inner loop of `fsRead` is not negative. -/
theorem tdiv_slack_nonneg (cfg : Config) (hB : 0 < cfg.BYTESPERBLOCK) :
    0 ≤ (11 * cfg.BYTESPERBLOCK).tdiv 30 := by
  rw [Int.tdiv_eq_ediv (by omega) (by omega)]
  exact Int.ediv_nonneg (by omega) (by omega)

/-- Invariant of the outer loop of `fsRead`: as long as the loop can continue,
`cursor + bytesRead` is the offset of position `initialPtr` of block `FBN`, and
the bytes delivered so far are the bytes of the file. -/
theorem fsReadOuter_delivered (cfg : Config) (fd c numb Inum : Int)
    (hB : 0 < cfg.BYTESPERBLOCK) :
    ∀ (k : Nat) (s : FS) (FBN ip br : Int) (buf : Int → Int),
      0 ≤ br →
      ((c + br = FBN * cfg.BYTESPERBLOCK + ip ∧ 0 ≤ ip ∧ ip < cfg.BYTESPERBLOCK) ∨
        ¬ (br < numb ∧ br + c < fsSize s fd + 1)) →
      Delivered cfg s Inum c br buf →
      Delivered cfg (fsReadOuter cfg fd c numb Inum k s FBN ip br buf).2.2 Inum c
        (fsReadOuter cfg fd c numb Inum k s FBN ip br buf).1
        (fsReadOuter cfg fd c numb Inum k s FBN ip br buf).2.1 := by
  intro k
  induction k with
  | zero => intro s _ _ _ _ _ _ h; exact h
  | succ k ih =>
    intro s FBN ip br buf hbr hpos hdel
    by_cases hc : readOuterCond cfg s fd c numb FBN br
    · simp only [fsReadOuter, hc, if_true]
      have hfr := bfsRead_frame s Inum FBN
      obtain ⟨d, hd, hbio⟩ := bfsRead_map s Inum FBN
      obtain ⟨n, hn, h1, h2, h3, h4, h5⟩ :=
        fsReadInner_spec cfg (bfsRead s Inum FBN).2 fd c numb (bfsRead s Inum FBN).1
          (cfg.BYTESPERBLOCK - ip).toNat ip br buf
      have hp : c + br = FBN * cfg.BYTESPERBLOCK + ip ∧ 0 ≤ ip ∧ ip < cfg.BYTESPERBLOCK := by
        rcases hpos with h | h
        · exact h
        · exact absurd ⟨hc.2.1, hc.2.2⟩ h
      apply ih
      · rw [h1]; omega
      · rw [h1]
        rcases h5 with h5 | h5
        · left
          have : (n : Int) = cfg.BYTESPERBLOCK - ip := by
            rw [h5]; exact Int.toNat_of_nonneg (by omega)
          refine ⟨?_, le_refl _, hB⟩
          rw [this]; linarith [hp.1]
        · by_cases hfull : ip + (n : Int) < cfg.BYTESPERBLOCK
          · right
            intro hh
            apply h5
            refine ⟨hfull, hh.1, ?_⟩
            have := tdiv_slack_nonneg cfg hB
            have := hh.2
            omega
          · left
            have hle : (n : Int) ≤ cfg.BYTESPERBLOCK - ip := by
              have := Int.toNat_of_nonneg (show 0 ≤ cfg.BYTESPERBLOCK - ip by omega)
              omega
            refine ⟨?_, le_refl _, hB⟩
            have : (n : Int) = cfg.BYTESPERBLOCK - ip := by omega
            rw [this]; linarith [hp.1]
      · intro i h0 hi
        rw [h1] at hi
        by_cases hlt : i < br
        · obtain ⟨d0, hd0, hb0⟩ := hdel i h0 hlt
          exact ⟨d0, hfr.mapped _ _ _ hd0, by rw [h2 i hlt, hfr.disk]; exact hb0⟩
        · have hle : (n : Int) ≤ cfg.BYTESPERBLOCK - ip := by
            have := Int.toNat_of_nonneg (show 0 ≤ cfg.BYTESPERBLOCK - ip by omega)
            omega
          have hi2 : i = br + ((i - br).toNat : Int) := by
            rw [Int.toNat_of_nonneg (by omega)]; ring
          have ht : (i - br).toNat < n := by omega
          have hval := h3 (i - br).toNat ht
          rw [← hi2] at hval
          have hq : (c + i) / cfg.BYTESPERBLOCK = FBN ∧
              (c + i) % cfg.BYTESPERBLOCK = ip + ((i - br).toNat : Int) := by
            rw [Int.ediv_emod_unique hB]
            refine ⟨?_, by omega, by omega⟩
            have := hp.1
            rw [Int.toNat_of_nonneg (by omega)]
            linarith [mul_comm cfg.BYTESPERBLOCK FBN]
          refine ⟨d, ?_, ?_⟩
          · rw [hq.1]; exact hd
          · rw [hval, hq.2, hbio, hfr.disk]
    · simp only [fsReadOuter, hc, if_false]
      exact hdel

/-- One more pass allowed changes nothing once the bound covers the block. -/
theorem fsReadInner_succ (cfg : Config) (s : FS) (fd c numb : Int) (bio : Int → Int) :
    ∀ (k : Nat) (ptr br : Int) (buf : Int → Int),
      (cfg.BYTESPERBLOCK - ptr).toNat ≤ k →
      fsReadInner cfg s fd c numb bio (k + 1) ptr br buf =
        fsReadInner cfg s fd c numb bio k ptr br buf := by
  intro k
  induction k with
  | zero =>
    intro ptr br buf h
    have hp : ¬ readInnerCond cfg s fd c numb ptr br := by
      intro hh
      have := hh.1
      omega
    simp [fsReadInner, hp]
  | succ k ih =>
    intro ptr br buf h
    by_cases hp : readInnerCond cfg s fd c numb ptr br
    · have e1 : fsReadInner cfg s fd c numb bio (k + 1 + 1) ptr br buf =
          fsReadInner cfg s fd c numb bio (k + 1) (ptr + 1) (br + 1)
            (Function.update buf br (bio ptr)) := by
        rw [fsReadInner]; simp [hp]
      have e2 : fsReadInner cfg s fd c numb bio (k + 1) ptr br buf =
          fsReadInner cfg s fd c numb bio k (ptr + 1) (br + 1)
            (Function.update buf br (bio ptr)) := by
        rw [fsReadInner]; simp [hp]
      rw [e1, e2]
      exact ih _ _ _ (by omega)
    · have e1 : fsReadInner cfg s fd c numb bio (k + 1 + 1) ptr br buf = (br, buf) := by
        rw [fsReadInner]; simp [hp]
      have e2 : fsReadInner cfg s fd c numb bio (k + 1) ptr br buf = (br, buf) := by
        rw [fsReadInner]; simp [hp]
      rw [e1, e2]

/-- The inner loop of `fsRead` never stops for lack of passes: any bound of at
least `BYTESPERBLOCK - ptr` gives the result of the bound the model uses. -/
theorem fsReadInner_fuel (cfg : Config) (s : FS) (fd c numb : Int) (bio : Int → Int)
    (ptr br : Int) (buf : Int → Int) (extra : Nat) :
    fsReadInner cfg s fd c numb bio ((cfg.BYTESPERBLOCK - ptr).toNat + extra) ptr br buf =
      fsReadInner cfg s fd c numb bio (cfg.BYTESPERBLOCK - ptr).toNat ptr br buf := by
  induction extra with
  | zero => rfl
  | succ e ih =>
    rw [← ih, ← Nat.add_assoc]
    exact fsReadInner_succ cfg s fd c numb bio _ ptr br buf (Nat.le_add_right _ _)

/-- One more pass allowed changes nothing once the bound covers the blocks up to
`MAXFBN`. -/
theorem fsReadOuter_succ (cfg : Config) (fd c numb Inum : Int) :
    ∀ (k : Nat) (s : FS) (FBN ip br : Int) (buf : Int → Int),
      (cfg.MAXFBN - FBN).toNat ≤ k →
      fsReadOuter cfg fd c numb Inum (k + 1) s FBN ip br buf =
        fsReadOuter cfg fd c numb Inum k s FBN ip br buf := by
  intro k
  induction k with
  | zero =>
    intro s FBN ip br buf h
    have hp : ¬ readOuterCond cfg s fd c numb FBN br := by
      intro hh
      have := hh.1
      omega
    simp [fsReadOuter, hp]
  | succ k ih =>
    intro s FBN ip br buf h
    by_cases hp : readOuterCond cfg s fd c numb FBN br
    · rw [fsReadOuter, if_pos hp]
      conv_rhs => rw [fsReadOuter, if_pos hp]
      exact ih _ _ _ _ _ (by omega)
    · rw [fsReadOuter, if_neg hp]
      conv_rhs => rw [fsReadOuter, if_neg hp]

/-- The outer loop of `fsRead` never stops for lack of passes: any bound of at
least `MAXFBN - FBN` gives the result of the bound the model uses. -/
theorem fsReadOuter_fuel (cfg : Config) (fd c numb Inum : Int) (s : FS)
    (FBN ip br : Int) (buf : Int → Int) (extra : Nat) :
    fsReadOuter cfg fd c numb Inum ((cfg.MAXFBN - FBN).toNat + extra) s FBN ip br buf =
      fsReadOuter cfg fd c numb Inum (cfg.MAXFBN - FBN).toNat s FBN ip br buf := by
  induction extra with
  | zero => rfl
  | succ e ih =>
    rw [← ih, ← Nat.add_assoc]
    exact fsReadOuter_succ cfg fd c numb Inum _ s FBN ip br buf (Nat.le_add_right _ _)

/-! ## One pass of `fsWrite` inside a block -/

/-- Recording a request keeps the mapping. -/
theorem record_fbnMap (s : FS) (e : Event) : (s.record e).fbnMap = s.fbnMap := rfl
/-- Recording a request keeps the disk. -/
theorem record_disk (s : FS) (e : Event) : (s.record e).disk = s.disk := rfl

/-- A write of at most one block of bytes makes one pass of the loop. -/
theorem fsWrite_single (cfg : Config) (s : FS) (fd numb : Int) (buf : Int → Int)
    (h : numb ≤ cfg.BYTESPERBLOCK) :
    fsWrite cfg s fd numb buf =
      match fsWriteBody cfg fd buf 0 s ((bfsTell s fd).tdiv cfg.BYTESPERBLOCK) numb with
      | Except.error r => r
      | Except.ok (s1, _, _) => (0, s1) := by
  unfold fsWrite
  rw [if_neg (not_lt.mpr h)]
  simp only [fsWriteLoop]

/-- The flush of a pass of `fsWrite` on the growth branch: the logical block is
linked to the second block allocated, which receives the staging block. -/
theorem writeFlush_growth (cfg : Config) (fd : Int) (s : FS)
    (Inum FBN DBN numb cursor bytesWrote : Int) (bioBuf : Int → Int)
    (hg : cursor + numb > fsSize s fd) :
    (writeFlush cfg fd s Inum FBN DBN numb cursor bytesWrote bioBuf).fbnMap Inum FBN =
        some (s.freeList (s.nAlloc + 1)) ∧
      ∀ j, 0 ≤ j → j < cfg.BYTESPERBLOCK →
        (writeFlush cfg fd s Inum FBN DBN numb cursor bytesWrote bioBuf).disk
          (s.freeList (s.nAlloc + 1)) j = bioBuf j := by
  simp only [writeFlush, if_pos hg]
  refine ⟨?_, ?_⟩
  · simp [bioWrite, bfsSetCursor, bfsAllocBlock, allocLink, FS.record]
  · intro j hj0 hj1
    simp only [bioWrite, bfsSetCursor, bfsAllocBlock, allocLink, FS.record, Function.update_apply]
    split_ifs <;> first | rfl | omega | simp_all

/-- The flush of a pass of `fsWrite` without growth: the mapping is kept and
the resolved physical block receives the staging block. -/
theorem writeFlush_same (cfg : Config) (fd : Int) (s : FS)
    (Inum FBN DBN numb cursor bytesWrote : Int) (bioBuf : Int → Int)
    (hg : ¬ cursor + numb > fsSize s fd) :
    (writeFlush cfg fd s Inum FBN DBN numb cursor bytesWrote bioBuf).fbnMap = s.fbnMap ∧
      ∀ j, 0 ≤ j → j < cfg.BYTESPERBLOCK →
        (writeFlush cfg fd s Inum FBN DBN numb cursor bytesWrote bioBuf).disk DBN j =
          bioBuf j := by
  simp only [writeFlush, if_neg hg]
  refine ⟨rfl, ?_⟩
  intro j hj0 hj1
  simp [bioWrite, bfsSetCursor, hj0, hj1]

/-- A write of `m` bytes that starts at position `k < BYTESPERBLOCK` of a mapped
block `b` and ends inside it returns 0 and leaves the block with the new bytes
at `[k, k + m)` and the old ones elsewhere, whether or not the write extends
the size. -/
theorem fsWrite_partial_lt (cfg : Config) (s : FS) (fd b k m d : Int) (data : Int → Int)
    (hB : 0 < cfg.BYTESPERBLOCK)
    (hi0 : 0 ≤ bfsFdToInum s fd) (hi1 : bfsFdToInum s fd ≤ cfg.MAXINUM)
    (hb0 : 0 ≤ b) (hb1 : b ≤ cfg.MAXFBN)
    (hmap : s.fbnMap (bfsFdToInum s fd) b = some d)
    (hd0 : 0 ≤ d) (hd1 : d ≤ cfg.BLOCKSPERDISK)
    (hk : 0 ≤ k) (hkm : k + m ≤ cfg.BYTESPERBLOCK) (hkB : k < cfg.BYTESPERBLOCK)
    (hcur : fsTell s fd = b * cfg.BYTESPERBLOCK + k) :
    (fsWrite cfg s fd m data).1 = 0 ∧
    ∀ j, 0 ≤ j → j < cfg.BYTESPERBLOCK →
      (bfsRead (fsWrite cfg s fd m data).2 (bfsFdToInum s fd) b).1 j =
        if k ≤ j ∧ j < k + m then data (j - k) else (bfsRead s (bfsFdToInum s fd) b).1 j := by
  have hcur1 : bfsTell s fd = b * cfg.BYTESPERBLOCK + k := hcur
  have hc0 : 0 ≤ bfsTell s fd := by
    rw [hcur1]; positivity
  have hq : bfsTell s fd / cfg.BYTESPERBLOCK = b ∧ bfsTell s fd % cfg.BYTESPERBLOCK = k := by
    rw [Int.ediv_emod_unique hB]
    exact ⟨by rw [hcur1]; ring, hk, hkB⟩
  have hF : (bfsTell s fd).tdiv cfg.BYTESPERBLOCK = b := by
    rw [Int.tdiv_eq_ediv hc0 (le_of_lt hB)]; exact hq.1
  have hM : (bfsTell s fd).tmod cfg.BYTESPERBLOCK = k := by
    rw [Int.tmod_eq_emod hc0 (le_of_lt hB)]; exact hq.2
  have hres : bfsFbnToDbn s (bfsFdToInum s fd) b =
      (d, s.record (Event.fbnToDbn (bfsFdToInum s fd) b)) :=
    resolveBlock_of_mapped _ _ _ d hmap
  have hbw : writeCount cfg 0 b m (bfsTell s fd) = m := by
    unfold writeCount
    split
    · rfl
    · rw [hcur1]; rw [hcur1] at *; nlinarith
  rw [fsWrite_single cfg s fd m data (by omega), hF]
  have hbody : fsWriteBody cfg fd data 0 s b m = Except.ok
      (writeFlush cfg fd
        (((bfsRead (s.record (Event.fbnToDbn (bfsFdToInum s fd) b)) (bfsFdToInum s fd) b).2).record
          (Event.memcpy k m))
        (bfsFdToInum s fd) b d m (bfsTell s fd) m
        (writeStage cfg data 0 (s.record (Event.fbnToDbn (bfsFdToInum s fd) b))
          (bfsFdToInum s fd) b m (bfsTell s fd)), b, m - m) := by
    simp only [fsWriteBody, add_zero, hres, hbw, hM]
    rw [if_neg (by omega), if_neg (by omega), if_neg (by omega)]
  rw [hbody]
  have hmap1 : (s.record (Event.fbnToDbn (bfsFdToInum s fd) b)).fbnMap (bfsFdToInum s fd) b =
      some d := hmap
  have hmap2 : ((s.record (Event.fbnToDbn (bfsFdToInum s fd) b)).record
      (Event.read (bfsFdToInum s fd) b)).fbnMap (bfsFdToInum s fd) b = some d := hmap
  have hrd2 : (bfsRead (s.record (Event.fbnToDbn (bfsFdToInum s fd) b)) (bfsFdToInum s fd) b).2 =
      (s.record (Event.fbnToDbn (bfsFdToInum s fd) b)).record
        (Event.read (bfsFdToInum s fd) b) := by
    simp only [bfsRead, resolveBlock_of_mapped _ _ _ d hmap2]
  have hrd1 : (bfsRead (s.record (Event.fbnToDbn (bfsFdToInum s fd) b)) (bfsFdToInum s fd) b).1 =
      s.disk d := bfsRead_of_mapped _ _ _ d hmap1
  have hstage : ∀ j, writeStage cfg data 0 (s.record (Event.fbnToDbn (bfsFdToInum s fd) b))
      (bfsFdToInum s fd) b m (bfsTell s fd) j =
        if k ≤ j ∧ j < k + m then data (j - k) else s.disk d j := by
    intro j
    simp only [writeStage, hrd1, hbw, hM, memcpy]
  refine ⟨rfl, ?_⟩
  intro j hj0 hj1
  rw [bfsRead_of_mapped s _ _ d hmap, ← hstage j]
  by_cases hg : bfsTell s fd + m > fsSize
      ((bfsRead (s.record (Event.fbnToDbn (bfsFdToInum s fd) b)) (bfsFdToInum s fd) b).2.record
        (Event.memcpy k m)) fd
  · obtain ⟨h1, h2⟩ := writeFlush_growth cfg fd _ (bfsFdToInum s fd) b d m (bfsTell s fd) m
      (writeStage cfg data 0 (s.record (Event.fbnToDbn (bfsFdToInum s fd) b))
        (bfsFdToInum s fd) b m (bfsTell s fd)) hg
    rw [bfsRead_of_mapped _ _ _ _ h1]
    exact h2 j hj0 hj1
  · obtain ⟨h1, h2⟩ := writeFlush_same cfg fd _ (bfsFdToInum s fd) b d m (bfsTell s fd) m
      (writeStage cfg data 0 (s.record (Event.fbnToDbn (bfsFdToInum s fd) b))
        (bfsFdToInum s fd) b m (bfsTell s fd)) hg
    have h3 : (writeFlush cfg fd
        ((bfsRead (s.record (Event.fbnToDbn (bfsFdToInum s fd) b)) (bfsFdToInum s fd) b).2.record
          (Event.memcpy k m))
        (bfsFdToInum s fd) b d m (bfsTell s fd) m
        (writeStage cfg data 0 (s.record (Event.fbnToDbn (bfsFdToInum s fd) b))
          (bfsFdToInum s fd) b m (bfsTell s fd))).fbnMap (bfsFdToInum s fd) b = some d := by
      rw [h1, hrd2]; exact hmap
    rw [bfsRead_of_mapped _ _ _ _ h3]
    exact h2 j hj0 hj1

/-- Recording a request frames the state. -/
theorem record_frame (s : FS) (e : Event) : ReadFrame s (s.record e) :=
  ⟨rfl, rfl, rfl, rfl, rfl, rfl, fun _ _ _ h => h⟩

/-- The call `bfsFbnToDbn` changes nothing but the mapping of an unmapped block and
the log. -/
theorem bfsFbnToDbn_frame (s : FS) (inum fbn : Int) :
    ReadFrame s (bfsFbnToDbn s inum fbn).2 :=
  (record_frame s _).trans (resolveBlock_frame _ inum fbn)

/-- After `bfsFbnToDbn` the logical block is mapped to the block returned. -/
theorem bfsFbnToDbn_map (s : FS) (inum fbn : Int) :
    (bfsFbnToDbn s inum fbn).2.fbnMap inum fbn = some (bfsFbnToDbn s inum fbn).1 :=
  resolveBlock_map _ inum fbn

/-- An empty write with the cursor on the first byte of block `b + 1`, inside the
size, leaves the content of block `b` as it was. -/
theorem fsWrite_partial_eq (cfg : Config) (s : FS) (fd b d : Int) (data : Int → Int)
    (hB : 0 < cfg.BYTESPERBLOCK) (hb0 : 0 ≤ b)
    (hmap : s.fbnMap (bfsFdToInum s fd) b = some d)
    (hsize : (b + 1) * cfg.BYTESPERBLOCK ≤ fsSize s fd)
    (hcur : fsTell s fd = b * cfg.BYTESPERBLOCK + cfg.BYTESPERBLOCK) :
    ∀ j, (bfsRead (fsWrite cfg s fd 0 data).2 (bfsFdToInum s fd) b).1 j =
        (bfsRead s (bfsFdToInum s fd) b).1 j := by
  have hcur1 : bfsTell s fd = (b + 1) * cfg.BYTESPERBLOCK := by
    have : bfsTell s fd = b * cfg.BYTESPERBLOCK + cfg.BYTESPERBLOCK := hcur
    rw [this]; ring
  have hc0 : 0 ≤ bfsTell s fd := by
    rw [hcur1]; positivity
  have hF : (bfsTell s fd).tdiv cfg.BYTESPERBLOCK = b + 1 := by
    rw [Int.tdiv_eq_ediv hc0 (le_of_lt hB), hcur1]
    exact Int.mul_ediv_cancel _ (ne_of_gt hB)
  have hbw : writeCount cfg 0 (b + 1) 0 (bfsTell s fd) = 0 := by
    unfold writeCount
    rw [if_pos]
    rw [hcur1]; nlinarith
  have hfr1 := bfsFbnToDbn_frame s (bfsFdToInum s fd) (b + 1)
  have hm1 := bfsFbnToDbn_map s (bfsFdToInum s fd) (b + 1)
  have hfr2 := bfsRead_frame (bfsFbnToDbn s (bfsFdToInum s fd) (b + 1)).2 (bfsFdToInum s fd) (b + 1)
  have hrd := bfsRead_of_mapped _ _ _ _ hm1
  intro j
  rw [bfsRead_of_mapped _ _ _ d hmap]
  rw [fsWrite_single cfg s fd 0 data (le_of_lt hB), hF]
  simp only [fsWriteBody, add_zero]
  split_ifs with h1 h2 h3
  · rw [bfsRead_of_mapped _ _ _ d (hfr1.mapped _ _ _ hmap), hfr1.disk]
  · rw [bfsRead_of_mapped _ _ _ d (hfr1.mapped _ _ _ hmap), hfr1.disk]
  · rw [bfsRead_of_mapped _ _ _ d (hfr1.mapped _ _ _ hmap), hfr1.disk]
  · have hng : ¬ (bfsTell s fd + 0 > fsSize
        ((bfsRead (bfsFbnToDbn s (bfsFdToInum s fd) (b + 1)).2 (bfsFdToInum s fd) (b + 1)).2.record
          (Event.memcpy ((bfsTell s fd).tmod cfg.BYTESPERBLOCK)
            (writeCount cfg 0 (b + 1) 0 (bfsTell s fd)))) fd) := by
      rw [((hfr1.trans hfr2).trans (record_frame _ _)).fsSize, hcur1]
      omega
    simp only [writeFlush, if_neg hng]
    have hmapf : (bioWrite cfg
        (bfsSetCursor
          ((bfsRead (bfsFbnToDbn s (bfsFdToInum s fd) (b + 1)).2 (bfsFdToInum s fd) (b + 1)).2.record
            (Event.memcpy ((bfsTell s fd).tmod cfg.BYTESPERBLOCK)
              (writeCount cfg 0 (b + 1) 0 (bfsTell s fd))))
          (bfsFdToInum s fd) (bfsTell s fd + writeCount cfg 0 (b + 1) 0 (bfsTell s fd)))
        (bfsFbnToDbn s (bfsFdToInum s fd) (b + 1)).1
        (writeStage cfg data 0 (bfsFbnToDbn s (bfsFdToInum s fd) (b + 1)).2 (bfsFdToInum s fd)
          (b + 1) 0 (bfsTell s fd))).fbnMap (bfsFdToInum s fd) b = some d :=
      hfr2.mapped _ _ _ (hfr1.mapped _ _ _ hmap)
    rw [bfsRead_of_mapped _ _ _ d hmapf]
    simp only [bioWrite, bfsSetCursor, FS.record, hfr2.disk, hfr1.disk, writeStage, hbw, memcpy,
      hrd, Function.update_apply]
    split_ifs <;> first | rfl | omega | simp_all

/-! ## Cursors, requests and counts -/

/-- A frame of the read path is a frame of the cursors, whatever the entry. -/
theorem ReadFrame.cursorFrame {s s1 : FS} (h : ReadFrame s s1) (slot : Int) :
    CursorFrame s s1 slot :=
  ⟨h.fdInum, h.fdOfte, h.inumOfte, fun e _ => by rw [h.oftCurs]⟩

/-- Cursor frames on the same entry compose. -/
theorem CursorFrame.compose {s s1 s2 : FS} {slot : Int} (h1 : CursorFrame s s1 slot)
    (h2 : CursorFrame s1 s2 slot) : CursorFrame s s2 slot :=
  ⟨h2.fdInum.trans h1.fdInum, h2.fdOfte.trans h1.fdOfte, h2.inumOfte.trans h1.inumOfte,
    fun e he => (h2.others e he).trans (h1.others e he)⟩

/-- Across a cursor frame, a descriptor bound to another entry keeps its cursor. -/
theorem CursorFrame.fsTell {s s1 : FS} {slot : Int} (h : CursorFrame s s1 slot) (fd : Int)
    (hne : s.fdOfte fd ≠ slot) : fsTell s1 fd = fsTell s fd := by
  simp only [BFS.fsTell, bfsTell, h.fdOfte]
  exact h.others _ hne

/-- The open-file table after the flush of a pass of `fsWrite`: the bindings are
kept and the entry found for the inode holds `cursor + bytesWrote`. -/
theorem writeFlush_oft (cfg : Config) (fd : Int) (s : FS)
    (Inum FBN DBN numb cursor bytesWrote : Int) (bioBuf : Int → Int) :
    (writeFlush cfg fd s Inum FBN DBN numb cursor bytesWrote bioBuf).fdInum = s.fdInum ∧
      (writeFlush cfg fd s Inum FBN DBN numb cursor bytesWrote bioBuf).fdOfte = s.fdOfte ∧
      (writeFlush cfg fd s Inum FBN DBN numb cursor bytesWrote bioBuf).inumOfte = s.inumOfte ∧
      (writeFlush cfg fd s Inum FBN DBN numb cursor bytesWrote bioBuf).oftCurs =
        Function.update s.oftCurs (s.inumOfte Inum) (cursor + bytesWrote) := by
  unfold writeFlush
  split_ifs <;>
    simp [bioWrite, bfsSetCursor, bfsAllocBlock, allocLink, FS.record, bfsFindOFTE]

/-- The state from which a pass of `fsWrite` flushes frames the state at the
start of the pass. -/
theorem writePass_frame (s : FS) (Inum FBN : Int) (e : Event) :
    ReadFrame s ((bfsRead (bfsFbnToDbn s Inum FBN).2 Inum FBN).2.record e) :=
  ((bfsFbnToDbn_frame s Inum FBN).trans (bfsRead_frame _ Inum FBN)).trans (record_frame _ e)

/-- A pass of `fsWrite` that returns early frames the state; a pass that
completes keeps the bindings of the open-file table and stores
`cursor + bytesWrote` in the entry found for the inode of the descriptor. -/
theorem fsWriteBody_oft (cfg : Config) (fd : Int) (buf : Int → Int) (i : Int) (s : FS)
    (FBN numb : Int) :
    (∀ r, fsWriteBody cfg fd buf i s FBN numb = Except.error r → ReadFrame s r.2) ∧
      (∀ r, fsWriteBody cfg fd buf i s FBN numb = Except.ok r →
        r.1.fdInum = s.fdInum ∧ r.1.fdOfte = s.fdOfte ∧ r.1.inumOfte = s.inumOfte ∧
        r.1.oftCurs = Function.update s.oftCurs (s.inumOfte (bfsFdToInum s fd))
          (bfsTell s fd + writeCount cfg i (FBN + i) numb (bfsTell s fd)) ∧
        r.2.1 = FBN + i ∧
        r.2.2 = numb - writeCount cfg i (FBN + i) numb (bfsTell s fd) ∧
        0 ≤ FBN + i) := by
  have hfr := bfsFbnToDbn_frame s (bfsFdToInum s fd) (FBN + i)
  simp only [fsWriteBody]
  split_ifs with h1 h2 h3
  · refine ⟨fun r hr => ?_, fun r hr => hr.elim⟩
    cases hr; exact hfr
  · refine ⟨fun r hr => ?_, fun r hr => hr.elim⟩
    cases hr; exact hfr
  · refine ⟨fun r hr => ?_, fun r hr => hr.elim⟩
    cases hr; exact hfr
  · refine ⟨fun r hr => ?_, fun r hr => ?_⟩
    · exact hr.elim
    cases hr
    have hw := writeFlush_oft cfg fd
      ((bfsRead (bfsFbnToDbn s (bfsFdToInum s fd) (FBN + i)).2 (bfsFdToInum s fd)
        (FBN + i)).2.record
          (Event.memcpy ((bfsTell s fd).tmod cfg.BYTESPERBLOCK)
            (writeCount cfg i (FBN + i) numb (bfsTell s fd))))
      (bfsFdToInum s fd) (FBN + i) (bfsFbnToDbn s (bfsFdToInum s fd) (FBN + i)).1 numb
      (bfsTell s fd) (writeCount cfg i (FBN + i) numb (bfsTell s fd))
      (writeStage cfg buf i (bfsFbnToDbn s (bfsFdToInum s fd) (FBN + i)).2 (bfsFdToInum s fd)
        (FBN + i) numb (bfsTell s fd))
    have hp := writePass_frame s (bfsFdToInum s fd) (FBN + i)
      (Event.memcpy ((bfsTell s fd).tmod cfg.BYTESPERBLOCK)
        (writeCount cfg i (FBN + i) numb (bfsTell s fd)))
    refine ⟨hw.1.trans hp.fdInum, hw.2.1.trans hp.fdOfte, hw.2.2.1.trans hp.inumOfte, ?_,
      rfl, rfl, by omega⟩
    rw [hw.2.2.2, hp.oftCurs, hp.inumOfte]
/-- A pass of `fsWrite` is a cursor frame on the entry found for the inode of
the descriptor. -/
theorem fsWriteBody_cursorFrame (cfg : Config) (fd : Int) (buf : Int → Int) (i : Int) (s : FS)
    (FBN numb : Int) :
    (∀ r, fsWriteBody cfg fd buf i s FBN numb = Except.error r →
        CursorFrame s r.2 (bfsFindOFTE s (bfsFdToInum s fd))) ∧
      (∀ r, fsWriteBody cfg fd buf i s FBN numb = Except.ok r →
        CursorFrame s r.1 (bfsFindOFTE s (bfsFdToInum s fd))) := by
  obtain ⟨h1, h2⟩ := fsWriteBody_oft cfg fd buf i s FBN numb
  refine ⟨fun r hr => (h1 r hr).cursorFrame _, fun r hr => ?_⟩
  obtain ⟨a, b, c, d, _⟩ := h2 r hr
  refine ⟨a, b, c, fun e he => ?_⟩
  rw [d]
  exact Function.update_noteq he _ _

/-- The loop of `fsWrite` is a cursor frame on the entry found for the inode of
the descriptor. -/
theorem fsWriteLoop_cursorFrame (cfg : Config) (fd : Int) (buf : Int → Int) :
    ∀ (k : Nat) (i : Int) (s : FS) (FBN numb : Int),
      CursorFrame s (fsWriteLoop cfg fd buf k i s FBN numb).2
        (bfsFindOFTE s (bfsFdToInum s fd)) := by
  intro k
  induction k with
  | zero =>
    intro i s FBN numb
    exact (ReadFrame.refl s).cursorFrame _
  | succ k ih =>
    intro i s FBN numb
    obtain ⟨h1, h2⟩ := fsWriteBody_cursorFrame cfg fd buf i s FBN numb
    rw [fsWriteLoop]
    cases hb : fsWriteBody cfg fd buf i s FBN numb with
    | error r => exact h1 r hb
    | ok r =>
      obtain ⟨s1, FBN1, numb1⟩ := r
      have hf := h2 _ hb
      have hi := ih (i + 1) s1 FBN1 numb1
      have hslot : bfsFindOFTE s1 (bfsFdToInum s1 fd) = bfsFindOFTE s (bfsFdToInum s fd) := by
        simp only [bfsFindOFTE, bfsFdToInum]
        rw [show s1.inumOfte = s.inumOfte from hf.inumOfte, show s1.fdInum = s.fdInum from hf.fdInum]
      rw [hslot] at hi
      exact hf.compose hi

/-- The count of a pass of `fsWrite` with `numb ≥ 0`, entered with a block
number and a pass number that are not negative, is at most `numb` and leaves
the cursor at least 0. -/
theorem writeCount_bounds (cfg : Config) (i FBN numb cursor : Int)
    (hB : 0 ≤ cfg.BYTESPERBLOCK) (hF : 0 ≤ FBN) (hi : 0 ≤ i) (hn : 0 ≤ numb)
    (hc : 0 ≤ cursor) :
    0 ≤ cursor + writeCount cfg i FBN numb cursor ∧ writeCount cfg i FBN numb cursor ≤ numb := by
  unfold writeCount
  split_ifs with h
  · exact ⟨by omega, le_refl _⟩
  · have hm : 0 ≤ (FBN + i + 1) * cfg.BYTESPERBLOCK := mul_nonneg (by omega) hB
    exact ⟨by omega, by omega⟩

/-- On an open descriptor with cursor at least 0, the loop of `fsWrite` entered
with `numb ≥ 0` leaves the cursor at least 0. -/
theorem fsWriteLoop_cursor_nonneg (cfg : Config) (fd : Int) (buf : Int → Int)
    (hB : 0 ≤ cfg.BYTESPERBLOCK) :
    ∀ (k : Nat) (i : Int) (s : FS) (FBN numb : Int),
      OpenFd s fd → 0 ≤ i → 0 ≤ numb → 0 ≤ fsTell s fd →
      0 ≤ fsTell (fsWriteLoop cfg fd buf k i s FBN numb).2 fd := by
  intro k
  induction k with
  | zero => intro i s FBN numb _ _ _ hc; exact hc
  | succ k ih =>
    intro i s FBN numb hfd hi hn hc
    obtain ⟨h1, h2⟩ := fsWriteBody_oft cfg fd buf i s FBN numb
    rw [fsWriteLoop]
    cases hb : fsWriteBody cfg fd buf i s FBN numb with
    | error r =>
      have hfr := h1 r hb
      show 0 ≤ bfsTell r.2 fd
      rw [hfr.bfsTell]; exact hc
    | ok r =>
      obtain ⟨s1, FBN1, numb1⟩ := r
      obtain ⟨a, b, c, d, e, f, g⟩ := h2 _ hb
      have hwc := writeCount_bounds cfg i (FBN + i) numb (bfsTell s fd) hB g hi hn hc
      have hslot : s.fdOfte fd = s.inumOfte (bfsFdToInum s fd) := hfd
      have htell : fsTell s1 fd =
          bfsTell s fd + writeCount cfg i (FBN + i) numb (bfsTell s fd) := by
        show s1.oftCurs (s1.fdOfte fd) = _
        rw [show s1.fdOfte = s.fdOfte from b, show s1.oftCurs = _ from d, hslot,
          Function.update_same]
      have hfd1 : OpenFd s1 fd := by
        show s1.fdOfte fd = s1.inumOfte (s1.fdInum fd)
        rw [show s1.fdOfte = s.fdOfte from b, show s1.inumOfte = s.inumOfte from c,
          show s1.fdInum = s.fdInum from a]
        exact hfd
      have hn1 : 0 ≤ numb1 := by
        have : numb1 = numb - writeCount cfg i (FBN + i) numb (bfsTell s fd) := f
        omega
      exact ih (i + 1) s1 FBN1 numb1 hfd1 (by omega) hn1 (by rw [htell]; exact hwc.1)

/-- On an open descriptor `fsRead` leaves the cursor at `cursor + bytesRead`. -/
theorem fsRead_tell (cfg : Config) (s : FS) (fd numb : Int) (buf : Int → Int)
    (hfd : OpenFd s fd) :
    fsTell (fsRead cfg s fd numb buf).2.2 fd = fsTell s fd + (fsRead cfg s fd numb buf).1 := by
  have hfr := fsRead_frame cfg s fd numb buf
  simp only [fsRead, fsTell, bfsTell, bfsSetCursor, bfsFindOFTE, hfr.fdOfte, hfr.inumOfte]
  rw [show s.fdOfte fd = s.inumOfte (bfsFdToInum s fd) from hfd, Function.update_same]

/-- The copies of the inner loop of `fsRead`: their number is the growth of
`bytesRead`, and each is made with the loop condition true. -/
theorem fsReadInnerIdx_spec (cfg : Config) (s : FS) (fd c numb : Int) (bio : Int → Int) :
    ∀ (k : Nat) (ptr br : Int) (buf : Int → Int),
      ((fsReadInnerIdx cfg s fd c numb k ptr br).length : Int) =
          (fsReadInner cfg s fd c numb bio k ptr br buf).1 - br ∧
        ∀ p ∈ fsReadInnerIdx cfg s fd c numb k ptr br,
          ptr ≤ p.1 ∧ p.1 < cfg.BYTESPERBLOCK ∧ br ≤ p.2 ∧ p.2 < numb := by
  intro k
  induction k with
  | zero =>
    intro ptr br buf
    simp [fsReadInnerIdx, fsReadInner]
  | succ k ih =>
    intro ptr br buf
    by_cases hc : readInnerCond cfg s fd c numb ptr br
    · obtain ⟨h1, h2⟩ := ih (ptr + 1) (br + 1) (Function.update buf br (bio ptr))
      simp only [fsReadInnerIdx, fsReadInner, hc, if_true, List.length_cons, List.mem_cons]
      refine ⟨by push_cast; omega, ?_⟩
      intro p hp
      rcases hp with hp | hp
      · subst hp
        exact ⟨le_refl _, hc.1, le_refl _, hc.2.1⟩
      · have := h2 p hp
        exact ⟨by omega, this.2.1, by omega, this.2.2.2⟩
    · simp [fsReadInnerIdx, fsReadInner, hc]

/-- The call `bfsRead` adds its request to the log and nothing else. -/
theorem bfsRead_log (s : FS) (inum fbn : Int) :
    (bfsRead s inum fbn).2.log = s.log ++ [Event.read inum fbn] := by
  simp only [bfsRead, resolveBlock]
  cases h : (s.record (Event.read inum fbn)).fbnMap inum fbn <;> rfl

/-- The loops of `fsRead`: the copies are as many as the bytes read, every copy
reads the staging block at an index in `[0, BYTESPERBLOCK)` and writes the
caller buffer at an index in `[bytesRead at entry, numb)`; the log grows by
the requests `bfsRead(Inum, f)` for some blocks `f` in `[FBN, MAXFBN)`, at most
`MAXFBN - FBN` of them. -/
theorem fsReadOuter_bounds (cfg : Config) (fd c numb Inum : Int) :
    ∀ (k : Nat) (s : FS) (FBN ip br : Int) (buf : Int → Int),
      0 ≤ ip →
      ((fsReadOuterIdx cfg fd c numb Inum k s FBN ip br buf).length : Int) =
          (fsReadOuter cfg fd c numb Inum k s FBN ip br buf).1 - br ∧
        (∀ p ∈ fsReadOuterIdx cfg fd c numb Inum k s FBN ip br buf,
          0 ≤ p.1 ∧ p.1 < cfg.BYTESPERBLOCK ∧ br ≤ p.2 ∧ p.2 < numb) ∧
        ∃ fs : List Int,
          (fsReadOuter cfg fd c numb Inum k s FBN ip br buf).2.2.log =
              s.log ++ fs.map (Event.read Inum) ∧
            (∀ f ∈ fs, FBN ≤ f ∧ f < cfg.MAXFBN) ∧
            fs.length ≤ (cfg.MAXFBN - FBN).toNat := by
  intro k
  induction k with
  | zero =>
    intro s FBN ip br buf _
    exact ⟨by simp [fsReadOuterIdx, fsReadOuter], by simp [fsReadOuterIdx],
      [], by simp [fsReadOuter], by simp, by simp⟩
  | succ k ih =>
    intro s FBN ip br buf hip
    by_cases hc : readOuterCond cfg s fd c numb FBN br
    · obtain ⟨a1, a2⟩ := fsReadInnerIdx_spec cfg (bfsRead s Inum FBN).2 fd c numb
        (bfsRead s Inum FBN).1 (cfg.BYTESPERBLOCK - ip).toNat ip br buf
      have hcnt := (fsReadInner_count cfg (bfsRead s Inum FBN).2 fd c numb (bfsRead s Inum FBN).1
        (cfg.BYTESPERBLOCK - ip).toNat ip br buf).1
      obtain ⟨b1, b2, fs, b3, b4, b5⟩ := ih (bfsRead s Inum FBN).2 (FBN + 1) 0
        (fsReadInner cfg (bfsRead s Inum FBN).2 fd c numb (bfsRead s Inum FBN).1
          (cfg.BYTESPERBLOCK - ip).toNat ip br buf).1
        (fsReadInner cfg (bfsRead s Inum FBN).2 fd c numb (bfsRead s Inum FBN).1
          (cfg.BYTESPERBLOCK - ip).toNat ip br buf).2 (le_refl _)
      simp only [fsReadOuterIdx, fsReadOuter, hc, if_true, List.length_append, List.mem_append]
      refine ⟨by push_cast; omega, ?_, FBN :: fs, ?_, ?_, ?_⟩
      · intro p hp
        rcases hp with hp | hp
        · have := a2 p hp
          exact ⟨by omega, this.2.1, this.2.2.1, this.2.2.2⟩
        · have := b2 p hp
          exact ⟨this.1, this.2.1, by omega, this.2.2.2⟩
      · rw [b3, bfsRead_log]
        simp
      · intro f hf
        rcases List.mem_cons.mp hf with hf | hf
        · subst hf; exact ⟨le_refl _, hc.1⟩
        · have := b4 f hf
          exact ⟨by omega, this.2⟩
      · have h1 := hc.1
        simp only [List.length_cons]
        omega
    · exact ⟨by simp [fsReadOuterIdx, fsReadOuter, hc], by simp [fsReadOuterIdx, hc],
        [], by simp [fsReadOuter, hc], by simp, by simp⟩

/-- Once its condition on `bytesRead` fails, the outer loop of `fsRead` returns
`bytesRead` as it is. -/
theorem fsReadOuter_stop (cfg : Config) (fd c numb Inum : Int) (k : Nat) (s : FS)
    (FBN ip br : Int) (buf : Int → Int)
    (h : ¬ (br < numb ∧ br + c < fsSize s fd + 1)) :
    (fsReadOuter cfg fd c numb Inum k s FBN ip br buf).1 = br := by
  cases k with
  | zero => rfl
  | succ k =>
    have hc : ¬ readOuterCond cfg s fd c numb FBN br := fun hh => h ⟨hh.2.1, hh.2.2⟩
    simp [fsReadOuter, hc]

/-- The inner loop of `fsRead`, entered inside a block with its condition true,
stops at the end of the block, or when `numb` bytes are read, or at offset
`size + 11 * BYTESPERBLOCK / 30 + 1`, whichever comes first. -/
theorem fsReadInner_exact (cfg : Config) (s : FS) (fd c numb : Int) (bio : Int → Int)
    (ip br : Int) (buf : Int → Int) (hip : ip < cfg.BYTESPERBLOCK)
    (hbr : br < numb)
    (hlim : br + c < fsSize s fd + 1 + (11 * cfg.BYTESPERBLOCK).tdiv 30) :
    ∃ n : Int, (fsReadInner cfg s fd c numb bio (cfg.BYTESPERBLOCK - ip).toNat ip br buf).1 =
        br + n ∧ 1 ≤ n ∧ n ≤ cfg.BYTESPERBLOCK - ip ∧ br + n ≤ numb ∧
      br + n + c ≤ fsSize s fd + 1 + (11 * cfg.BYTESPERBLOCK).tdiv 30 ∧
      (n = cfg.BYTESPERBLOCK - ip ∨ br + n = numb ∨
        br + n + c = fsSize s fd + 1 + (11 * cfg.BYTESPERBLOCK).tdiv 30) := by
  obtain ⟨n, hn, h1, _, _, h4, h5⟩ := fsReadInner_spec cfg s fd c numb bio
    (cfg.BYTESPERBLOCK - ip).toNat ip br buf
  have hk : ((cfg.BYTESPERBLOCK - ip).toNat : Int) = cfg.BYTESPERBLOCK - ip :=
    Int.toNat_of_nonneg (by omega)
  have hn1 : 1 ≤ n := by
    rcases h5 with h5 | h5
    · omega
    · by_contra hcon
      have h0 : n = 0 := by omega
      subst h0
      apply h5
      simpa using (⟨hip, hbr, hlim⟩ : readInnerCond cfg s fd c numb ip br)
  have hlast := h4 (n - 1) (by omega)
  have hcast : ((n - 1 : Nat) : Int) = (n : Int) - 1 := by omega
  rw [hcast] at hlast
  obtain ⟨l1, l2, l3⟩ := hlast
  refine ⟨(n : Int), h1, by omega, by omega, by omega, by omega, ?_⟩
  rcases h5 with h5 | h5
  · left; omega
  · by_cases hfull : (n : Int) = cfg.BYTESPERBLOCK - ip
    · left; exact hfull
    · right
      by_contra hcon
      apply h5
      refine ⟨by omega, by omega, by omega⟩

/-- Block starts are monotone in the block number. -/
theorem blockStart_le {a b B : Int} (hB : 0 < B) (h : a ≤ b) : a * B ≤ b * B :=
  mul_le_mul_of_nonneg_right h (le_of_lt hB)

/-- A block that starts earlier has a smaller number. -/
theorem blockStart_lt {a b B : Int} (hB : 0 < B) (h : a * B < b * B) : a < b :=
  lt_of_mul_lt_mul_right h (le_of_lt hB)

/-- The outer loop of `fsRead`, entered at the offset of position `initialPtr`
of block `FBN` not past the stopping offset `E`, returns `min numb (E - c)`,
where `E` is the least of the end of the block that holds offset `size`, the
offset `size + 11 * BYTESPERBLOCK / 30 + 1` and the start of block `MAXFBN`. -/
theorem fsReadOuter_exact (cfg : Config) (fd c numb Inum S q E : Int)
    (hB : 0 < cfg.BYTESPERBLOCK)
    (hq1 : q * cfg.BYTESPERBLOCK ≤ S) (hq2 : S < (q + 1) * cfg.BYTESPERBLOCK)
    (hE1 : E ≤ (q + 1) * cfg.BYTESPERBLOCK)
    (hE2 : E ≤ S + (11 * cfg.BYTESPERBLOCK).tdiv 30 + 1)
    (hE3 : E ≤ cfg.MAXFBN * cfg.BYTESPERBLOCK)
    (hEmin : E = (q + 1) * cfg.BYTESPERBLOCK ∨ E = S + (11 * cfg.BYTESPERBLOCK).tdiv 30 + 1 ∨
      E = cfg.MAXFBN * cfg.BYTESPERBLOCK) :
    ∀ (k : Nat) (s : FS) (FBN ip br : Int) (buf : Int → Int),
      fsSize s fd = S → (cfg.MAXFBN - FBN).toNat ≤ k →
      c + br = FBN * cfg.BYTESPERBLOCK + ip → 0 ≤ ip → ip < cfg.BYTESPERBLOCK →
      c + br ≤ E → br ≤ numb → (ip = 0 ∨ c + br ≤ S) →
      (fsReadOuter cfg fd c numb Inum k s FBN ip br buf).1 = min numb (E - c) := by
  have hL := tdiv_slack_nonneg cfg hB
  have eq1 : (q + 1) * cfg.BYTESPERBLOCK = q * cfg.BYTESPERBLOCK + cfg.BYTESPERBLOCK := by ring
  have hstopcase : ∀ (FBN ip br : Int), c + br = FBN * cfg.BYTESPERBLOCK + ip → 0 ≤ ip →
      c + br ≤ E → br ≤ numb → (ip = 0 ∨ c + br ≤ S) →
      ¬ (FBN < cfg.MAXFBN ∧ br < numb ∧ br + c < S + 1) → br = min numb (E - c) := by
    intro FBN ip br hal hip0 hE hbn hor hnc
    by_cases hM : cfg.MAXFBN ≤ FBN
    · have := blockStart_le hB hM
      omega
    · by_cases hbr : numb ≤ br
      · omega
      · have hgt : S < c + br := by
          by_contra hcon
          exact hnc ⟨by omega, by omega, by omega⟩
        have hip : ip = 0 := by
          rcases hor with h | h
          · exact h
          · omega
        have hlt : q * cfg.BYTESPERBLOCK < FBN * cfg.BYTESPERBLOCK := by omega
        have hq : q < FBN := blockStart_lt hB hlt
        have := blockStart_le hB (show q + 1 ≤ FBN by omega)
        omega
  intro k
  induction k with
  | zero =>
    intro s FBN ip br buf _ hfuel hal hip0 _ hE hbn hor
    show br = _
    exact hstopcase FBN ip br hal hip0 hE hbn hor (by omega)
  | succ k ih =>
    intro s FBN ip br buf hS hfuel hal hip0 hip1 hE hbn hor
    by_cases hc : readOuterCond cfg s fd c numb FBN br
    · obtain ⟨c1, c2, c3⟩ := hc
      rw [hS] at c3
      have hS1 : fsSize (bfsRead s Inum FBN).2 fd = S := by
        rw [(bfsRead_frame s Inum FBN).fsSize]; exact hS
      obtain ⟨n, h1, h2, h3, h4, h5, h6⟩ := fsReadInner_exact cfg (bfsRead s Inum FBN).2 fd c
        numb (bfsRead s Inum FBN).1 ip br buf hip1 c2 (by rw [hS1]; omega)
      rw [hS1] at h5 h6
      have eq2 : (FBN + 1) * cfg.BYTESPERBLOCK =
          FBN * cfg.BYTESPERBLOCK + cfg.BYTESPERBLOCK := by ring
      have hFq : FBN ≤ q := by
        have hlt : FBN * cfg.BYTESPERBLOCK < (q + 1) * cfg.BYTESPERBLOCK := by omega
        have := blockStart_lt hB hlt
        omega
      have f1 := blockStart_le hB (show FBN + 1 ≤ q + 1 by omega)
      have f3 := blockStart_le hB (show FBN + 1 ≤ cfg.MAXFBN by omega)
      have hpE : c + (br + n) ≤ E := by
        rcases hEmin with h | h | h <;> omega
      have hstep : (fsReadOuter cfg fd c numb Inum (k + 1) s FBN ip br buf).1 =
          (fsReadOuter cfg fd c numb Inum k (bfsRead s Inum FBN).2 (FBN + 1) 0 (br + n)
            (fsReadInner cfg (bfsRead s Inum FBN).2 fd c numb (bfsRead s Inum FBN).1
              (cfg.BYTESPERBLOCK - ip).toNat ip br buf).2).1 := by
        have hc' : readOuterCond cfg s fd c numb FBN br := ⟨c1, c2, by rw [hS]; exact c3⟩
        simp only [fsReadOuter, hc', if_true]
        rw [h1]
      rw [hstep]
      by_cases hfull : n = cfg.BYTESPERBLOCK - ip
      · exact ih _ (FBN + 1) 0 (br + n) _ hS1 (by omega) (by omega) (le_refl _) hB hpE h4
          (Or.inl rfl)
      · rw [fsReadOuter_stop cfg fd c numb Inum k _ (FBN + 1) 0 (br + n) _
          (by rw [hS1]; omega)]
        omega
    · have hres : (fsReadOuter cfg fd c numb Inum (k + 1) s FBN ip br buf).1 = br := by
        simp [fsReadOuter, hc]
      rw [hres]
      apply hstopcase FBN ip br hal hip0 hE hbn hor
      intro hh
      exact hc ⟨hh.1, hh.2.1, by rw [hS]; exact hh.2.2⟩

/-- A write of at most one block of bytes that crosses a block boundary stops at
the boundary: on the file of 600 bytes with the cursor at 500, `fsWrite` of 200
bytes makes one pass, copies 12 bytes into the staging block, returns 0 and
leaves the cursor at 512 and the size at 600. -/
theorem fsWrite_200_across_boundary :
    fsTell file600At500 0 = 500 ∧ fsSize file600At500 0 = 600 ∧
      (fsWrite cfg512 file600At500 0 200 sevens).1 = 0 ∧
      fsTell (fsWrite cfg512 file600At500 0 200 sevens).2 0 = 512 ∧
      fsSize (fsWrite cfg512 file600At500 0 200 sevens).2 0 = 600 ∧
      (newEvents file600At500 (fsWrite cfg512 file600At500 0 200 sevens).2).filter
          (fun e => match e with
            | Event.memcpy _ _ => true
            | _ => false) =
        [Event.memcpy 500 12] := by
  decide

/-- The exact count of `fsRead` when its sums are evaluated exactly.  With
`BYTESPERBLOCK > 0`, cursor `c`, size `S` and `E` the least of
`(S / BYTESPERBLOCK + 1) * BYTESPERBLOCK`, `S + 11 * BYTESPERBLOCK / 30 + 1`
and `MAXFBN * BYTESPERBLOCK`: for `0 ≤ c ≤ S` and `numb ≥ 0` the call returns
`max 0 (min numb (E - c))`, and for `c > S` it returns 0. -/
theorem fsRead_exact_count (cfg : Config) (s : FS) (fd numb : Int) (buf : Int → Int)
    (hB : 0 < cfg.BYTESPERBLOCK) :
    (0 ≤ fsTell s fd → fsTell s fd ≤ fsSize s fd → 0 ≤ numb →
        (fsRead cfg s fd numb buf).1 =
          max 0 (min numb
            (min (min ((fsSize s fd / cfg.BYTESPERBLOCK + 1) * cfg.BYTESPERBLOCK)
                (fsSize s fd + 11 * cfg.BYTESPERBLOCK / 30 + 1))
              (cfg.MAXFBN * cfg.BYTESPERBLOCK) - fsTell s fd))) ∧
      (fsSize s fd < fsTell s fd → (fsRead cfg s fd numb buf).1 = 0) := by
  have hrd : (fsRead cfg s fd numb buf).1 = (fsReadOuter cfg fd (bfsTell s fd) numb
      (bfsFdToInum s fd) (cfg.MAXFBN - (bfsTell s fd).tdiv cfg.BYTESPERBLOCK).toNat s
      ((bfsTell s fd).tdiv cfg.BYTESPERBLOCK)
      (bfsTell s fd - cfg.BYTESPERBLOCK * (bfsTell s fd).tdiv cfg.BYTESPERBLOCK) 0 buf).1 := rfl
  refine ⟨?_, ?_⟩
  · intro hc0 hcs hn
    have hc1 : 0 ≤ bfsTell s fd := hc0
    have hcs1 : bfsTell s fd ≤ fsSize s fd := hcs
    have hdiv : (bfsTell s fd).tdiv cfg.BYTESPERBLOCK = bfsTell s fd / cfg.BYTESPERBLOCK :=
      Int.tdiv_eq_ediv hc1 (le_of_lt hB)
    have hslack : (11 * cfg.BYTESPERBLOCK).tdiv 30 = 11 * cfg.BYTESPERBLOCK / 30 :=
      Int.tdiv_eq_ediv (by omega) (by omega)
    have hL := tdiv_slack_nonneg cfg hB
    have hq1 : fsSize s fd / cfg.BYTESPERBLOCK * cfg.BYTESPERBLOCK ≤ fsSize s fd :=
      Int.ediv_mul_le _ (ne_of_gt hB)
    have hq2 : fsSize s fd < (fsSize s fd / cfg.BYTESPERBLOCK + 1) * cfg.BYTESPERBLOCK :=
      Int.lt_ediv_add_one_mul_self _ hB
    have hm1 := Int.emod_add_ediv (bfsTell s fd) cfg.BYTESPERBLOCK
    have hm2 := Int.emod_nonneg (bfsTell s fd) (ne_of_gt hB)
    have hm3 := Int.emod_lt_of_pos (bfsTell s fd) hB
    have hcomm : cfg.BYTESPERBLOCK * (bfsTell s fd / cfg.BYTESPERBLOCK) =
        bfsTell s fd / cfg.BYTESPERBLOCK * cfg.BYTESPERBLOCK := mul_comm _ _
    show (fsRead cfg s fd numb buf).1 = max 0 (min numb
      (min (min ((fsSize s fd / cfg.BYTESPERBLOCK + 1) * cfg.BYTESPERBLOCK)
          (fsSize s fd + 11 * cfg.BYTESPERBLOCK / 30 + 1))
        (cfg.MAXFBN * cfg.BYTESPERBLOCK) - bfsTell s fd))
    rw [hrd, hdiv, ← hslack]
    by_cases hM : cfg.MAXFBN ≤ bfsTell s fd / cfg.BYTESPERBLOCK
    · have hk : (cfg.MAXFBN - bfsTell s fd / cfg.BYTESPERBLOCK).toNat = 0 := by omega
      rw [hk]
      have := blockStart_le hB hM
      show (0 : Int) = _
      omega
    · have hM1 := blockStart_le hB
        (show bfsTell s fd / cfg.BYTESPERBLOCK + 1 ≤ cfg.MAXFBN by omega)
      have eq2 : (bfsTell s fd / cfg.BYTESPERBLOCK + 1) * cfg.BYTESPERBLOCK =
          bfsTell s fd / cfg.BYTESPERBLOCK * cfg.BYTESPERBLOCK + cfg.BYTESPERBLOCK := by ring
      rw [fsReadOuter_exact cfg fd (bfsTell s fd) numb (bfsFdToInum s fd) (fsSize s fd)
        (fsSize s fd / cfg.BYTESPERBLOCK)
        (min (min ((fsSize s fd / cfg.BYTESPERBLOCK + 1) * cfg.BYTESPERBLOCK)
            (fsSize s fd + (11 * cfg.BYTESPERBLOCK).tdiv 30 + 1))
          (cfg.MAXFBN * cfg.BYTESPERBLOCK))
        hB hq1 hq2 (by omega) (by omega) (by omega) (by omega) _ s _ _ 0 buf rfl (le_refl _)
        (by omega) (by omega) (by omega) (by omega) hn (Or.inr (by omega))]
      omega
  · intro hgt
    have hgt1 : fsSize s fd < bfsTell s fd := hgt
    rw [hrd]
    exact fsReadOuter_stop cfg fd (bfsTell s fd) numb (bfsFdToInum s fd) _ s _ _ 0 buf
      (by omega)

/-- The three checks of `fsWrite` (fs.c, 186-188), which come after the call of
`bfsFbnToDbn` of line 183.  When the inode number fails `Inum > MAXINUM ||
Inum < 0`, or the starting logical block fails `FBN > MAXFBN || FBN < 0`, or
the physical block resolved for it fails `DBN > BLOCKSPERDISK || DBN < 0`,
`fsWrite` returns the error code of the first check that fails, in the state
that `bfsFbnToDbn` leaves: the cursors, the sizes and every stored block are
those of before, every mapping that existed is kept, and the whole mapping is
that of before when the starting logical block was mapped before the call. -/
theorem fsWrite_first_check_fails (cfg : Config) (s : FS) (fd numb : Int) (buf : Int → Int)
    (hbad : (bfsFdToInum s fd > cfg.MAXINUM ∨ bfsFdToInum s fd < 0) ∨
      ((bfsTell s fd).tdiv cfg.BYTESPERBLOCK > cfg.MAXFBN ∨
        (bfsTell s fd).tdiv cfg.BYTESPERBLOCK < 0) ∨
      ((bfsFbnToDbn s (bfsFdToInum s fd) ((bfsTell s fd).tdiv cfg.BYTESPERBLOCK)).1 >
          cfg.BLOCKSPERDISK ∨
        (bfsFbnToDbn s (bfsFdToInum s fd) ((bfsTell s fd).tdiv cfg.BYTESPERBLOCK)).1 < 0)) :
    (fsWrite cfg s fd numb buf).1 =
        (if bfsFdToInum s fd > cfg.MAXINUM ∨ bfsFdToInum s fd < 0 then cfg.EBADINUM
          else if (bfsTell s fd).tdiv cfg.BYTESPERBLOCK > cfg.MAXFBN ∨
            (bfsTell s fd).tdiv cfg.BYTESPERBLOCK < 0 then cfg.EBADFBN
          else cfg.EBADDBN) ∧
      (fsWrite cfg s fd numb buf).2.oftCurs = s.oftCurs ∧
      (fsWrite cfg s fd numb buf).2.size = s.size ∧
      (fsWrite cfg s fd numb buf).2.disk = s.disk ∧
      (∀ inum fbn d, s.fbnMap inum fbn = some d →
        (fsWrite cfg s fd numb buf).2.fbnMap inum fbn = some d) ∧
      (s.fbnMap (bfsFdToInum s fd) ((bfsTell s fd).tdiv cfg.BYTESPERBLOCK) ≠ none →
        (fsWrite cfg s fd numb buf).2.fbnMap = s.fbnMap) := by
  have hfr := bfsFbnToDbn_frame s (bfsFdToInum s fd) ((bfsTell s fd).tdiv cfg.BYTESPERBLOCK)
  have hloop : ∀ k : Nat, fsWriteLoop cfg fd buf (k + 1) 0 s
      ((bfsTell s fd).tdiv cfg.BYTESPERBLOCK) numb =
        ((if bfsFdToInum s fd > cfg.MAXINUM ∨ bfsFdToInum s fd < 0 then cfg.EBADINUM
          else if (bfsTell s fd).tdiv cfg.BYTESPERBLOCK > cfg.MAXFBN ∨
            (bfsTell s fd).tdiv cfg.BYTESPERBLOCK < 0 then cfg.EBADFBN
          else cfg.EBADDBN),
        (bfsFbnToDbn s (bfsFdToInum s fd) ((bfsTell s fd).tdiv cfg.BYTESPERBLOCK)).2) := by
    intro k
    simp only [fsWriteLoop, fsWriteBody, add_zero]
    split_ifs with h1 h2 h3
    · rfl
    · rfl
    · rfl
    · rcases hbad with h | h | h
      · exact absurd h h1
      · exact absurd h h2
      · exact absurd h h3
  have hw : fsWrite cfg s fd numb buf =
      ((if bfsFdToInum s fd > cfg.MAXINUM ∨ bfsFdToInum s fd < 0 then cfg.EBADINUM
          else if (bfsTell s fd).tdiv cfg.BYTESPERBLOCK > cfg.MAXFBN ∨
            (bfsTell s fd).tdiv cfg.BYTESPERBLOCK < 0 then cfg.EBADFBN
          else cfg.EBADDBN),
        (bfsFbnToDbn s (bfsFdToInum s fd) ((bfsTell s fd).tdiv cfg.BYTESPERBLOCK)).2) := by
    unfold fsWrite
    by_cases hn : numb > cfg.BYTESPERBLOCK
    · rw [if_pos hn]; exact hloop 1
    · rw [if_neg hn]; exact hloop 0
  rw [hw]
  refine ⟨rfl, hfr.oftCurs, hfr.size, hfr.disk, hfr.mapped, ?_⟩
  intro hm
  cases hmap : s.fbnMap (bfsFdToInum s fd) ((bfsTell s fd).tdiv cfg.BYTESPERBLOCK) with
  | none => exact absurd hmap hm
  | some d =>
    have : bfsFbnToDbn s (bfsFdToInum s fd) ((bfsTell s fd).tdiv cfg.BYTESPERBLOCK) =
        (d, s.record (Event.fbnToDbn (bfsFdToInum s fd)
          ((bfsTell s fd).tdiv cfg.BYTESPERBLOCK))) :=
      resolveBlock_of_mapped _ _ _ d hmap
    rw [this]
    rfl

/-! ## `i32` sums that stay in range -/

/-- An `i32` addition whose exact sum is in `INT_MIN .. INT_MAX` yields that sum. -/
theorem wrapI32_of_range {x : Int} (h1 : INT_MIN ≤ x) (h2 : x ≤ INT_MAX) : wrapI32 x = x := by
  unfold INT_MIN at h1
  unfold INT_MAX at h2
  unfold wrapI32
  omega

/-- The functions `fsSeekI32` and `fsSeek` agree whenever the sum that the mode
asks for is in `INT_MIN .. INT_MAX`. -/
theorem fsSeekI32_eq (cfg : Config) (s : FS) (fd offset whence : Int)
    (hcur : whence = SEEK_CUR →
      INT_MIN ≤ s.oftCurs (bfsFindOFTE s (bfsFdToInum s fd)) + offset ∧
        s.oftCurs (bfsFindOFTE s (bfsFdToInum s fd)) + offset ≤ INT_MAX)
    (hend : whence = SEEK_END →
      INT_MIN ≤ fsSize s fd + offset ∧ fsSize s fd + offset ≤ INT_MAX) :
    fsSeekI32 cfg s fd offset whence = fsSeek cfg s fd offset whence := by
  unfold fsSeekI32 fsSeek
  by_cases ho : offset < 0
  · simp only [ho, if_true]
  · simp only [ho, if_false]
    by_cases h1 : whence = SEEK_SET
    · simp only [h1, if_true]
    · simp only [h1, if_false]
      by_cases h2 : whence = SEEK_CUR
      · simp only [h2, if_true]
        rw [wrapI32_of_range (hcur h2).1 (hcur h2).2]
      · simp only [h2, if_false]
        by_cases h3 : whence = SEEK_END
        · simp only [h3, if_true]
          rw [wrapI32_of_range (hend h3).1 (hend h3).2]
        · simp only [h3, if_false]

/-- In the inner loop of `fsReadI32`, one more pass allowed changes nothing once
the bound covers the block. -/
theorem fsReadInnerI32_succ (cfg : Config) (s : FS) (fd c numb : Int) (bio : Int → Int) :
    ∀ (k : Nat) (ptr br : Int) (buf : Int → Int),
      (cfg.BYTESPERBLOCK - ptr).toNat ≤ k →
      fsReadInnerI32 cfg s fd c numb bio (k + 1) ptr br buf =
        fsReadInnerI32 cfg s fd c numb bio k ptr br buf := by
  intro k
  induction k with
  | zero =>
    intro ptr br buf h
    have hp : ¬ readInnerCondI32 cfg s fd c numb ptr br := by
      intro hh
      have := hh.1
      omega
    simp [fsReadInnerI32, hp]
  | succ k ih =>
    intro ptr br buf h
    by_cases hp : readInnerCondI32 cfg s fd c numb ptr br
    · have e1 : fsReadInnerI32 cfg s fd c numb bio (k + 1 + 1) ptr br buf =
          fsReadInnerI32 cfg s fd c numb bio (k + 1) (ptr + 1) (br + 1)
            (Function.update buf br (bio ptr)) := by
        rw [fsReadInnerI32]; simp [hp]
      have e2 : fsReadInnerI32 cfg s fd c numb bio (k + 1) ptr br buf =
          fsReadInnerI32 cfg s fd c numb bio k (ptr + 1) (br + 1)
            (Function.update buf br (bio ptr)) := by
        rw [fsReadInnerI32]; simp [hp]
      rw [e1, e2]
      exact ih _ _ _ (by omega)
    · have e1 : fsReadInnerI32 cfg s fd c numb bio (k + 1 + 1) ptr br buf = (br, buf) := by
        rw [fsReadInnerI32]; simp [hp]
      have e2 : fsReadInnerI32 cfg s fd c numb bio (k + 1) ptr br buf = (br, buf) := by
        rw [fsReadInnerI32]; simp [hp]
      rw [e1, e2]

/-- The inner loop of `fsReadI32` never stops for lack of passes: any bound of
at least `BYTESPERBLOCK - ptr` gives the result of the bound the model uses. -/
theorem fsReadInnerI32_fuel (cfg : Config) (s : FS) (fd c numb : Int) (bio : Int → Int)
    (ptr br : Int) (buf : Int → Int) (extra : Nat) :
    fsReadInnerI32 cfg s fd c numb bio ((cfg.BYTESPERBLOCK - ptr).toNat + extra) ptr br buf =
      fsReadInnerI32 cfg s fd c numb bio (cfg.BYTESPERBLOCK - ptr).toNat ptr br buf := by
  induction extra with
  | zero => rfl
  | succ e ih =>
    rw [← ih, ← Nat.add_assoc]
    exact fsReadInnerI32_succ cfg s fd c numb bio _ ptr br buf (Nat.le_add_right _ _)

/-- In the outer loop of `fsReadI32`, one more pass allowed changes nothing once
the bound covers the blocks up to `MAXFBN`. -/
theorem fsReadOuterI32_succ (cfg : Config) (fd c numb Inum : Int) :
    ∀ (k : Nat) (s : FS) (FBN ip br : Int) (buf : Int → Int),
      (cfg.MAXFBN - FBN).toNat ≤ k →
      fsReadOuterI32 cfg fd c numb Inum (k + 1) s FBN ip br buf =
        fsReadOuterI32 cfg fd c numb Inum k s FBN ip br buf := by
  intro k
  induction k with
  | zero =>
    intro s FBN ip br buf h
    have hp : ¬ readOuterCondI32 cfg s fd c numb FBN br := by
      intro hh
      have := hh.1
      omega
    simp [fsReadOuterI32, hp]
  | succ k ih =>
    intro s FBN ip br buf h
    by_cases hp : readOuterCondI32 cfg s fd c numb FBN br
    · rw [fsReadOuterI32, if_pos hp]
      conv_rhs => rw [fsReadOuterI32, if_pos hp]
      exact ih _ _ _ _ _ (by omega)
    · rw [fsReadOuterI32, if_neg hp]
      conv_rhs => rw [fsReadOuterI32, if_neg hp]

/-- The outer loop of `fsReadI32` never stops for lack of passes: any bound of
at least `MAXFBN - FBN` gives the result of the bound the model uses. -/
theorem fsReadOuterI32_fuel (cfg : Config) (fd c numb Inum : Int) (s : FS)
    (FBN ip br : Int) (buf : Int → Int) (extra : Nat) :
    fsReadOuterI32 cfg fd c numb Inum ((cfg.MAXFBN - FBN).toNat + extra) s FBN ip br buf =
      fsReadOuterI32 cfg fd c numb Inum (cfg.MAXFBN - FBN).toNat s FBN ip br buf := by
  induction extra with
  | zero => rfl
  | succ e ih =>
    rw [← ih, ← Nat.add_assoc]
    exact fsReadOuterI32_succ cfg fd c numb Inum _ s FBN ip br buf (Nat.le_add_right _ _)

/-- With the cursor at `INT_MAX`, the addition of `SEEK_CUR` overflows for the
offset 1: the call returns 0 and the cursor stored is `INT_MIN`. -/
theorem fsSeekI32_cur_overflow :
    fsTell file100AtMax 0 = 2147483647 ∧
      (fsSeekI32 cfg512 file100AtMax 0 1 SEEK_CUR).ret = some 0 ∧
      fsTell (fsSeekI32 cfg512 file100AtMax 0 1 SEEK_CUR).state 0 = -2147483648 := by
  decide

/-- The conditions of the inner loop of `fsRead` agree when
`fsSize(fd)+1+11*BYTESPERBLOCK/30` and `bytesRead+cursor` are in
`INT_MIN .. INT_MAX`. -/
theorem readInnerCondI32_iff (cfg : Config) (s : FS) (fd c numb ptr br : Int)
    (hB : 0 < cfg.BYTESPERBLOCK) (hB32 : 11 * cfg.BYTESPERBLOCK ≤ INT_MAX)
    (hS : INT_MIN ≤ fsSize s fd)
    (hfit : fsSize s fd + 1 + (11 * cfg.BYTESPERBLOCK).tdiv 30 ≤ INT_MAX)
    (h1 : INT_MIN ≤ br + c) (h2 : br + c ≤ INT_MAX) :
    readInnerCondI32 cfg s fd c numb ptr br ↔ readInnerCond cfg s fd c numb ptr br := by
  have hL := tdiv_slack_nonneg cfg hB
  have hmin : INT_MIN ≤ 11 * cfg.BYTESPERBLOCK := by unfold INT_MIN; omega
  have hmin1 : INT_MIN ≤ fsSize s fd + 1 := by unfold INT_MIN at hS ⊢; omega
  unfold readInnerCondI32 readInnerCond
  rw [wrapI32_of_range h1 h2, wrapI32_of_range hmin hB32,
    wrapI32_of_range hmin1 (by omega),
    wrapI32_of_range (by omega) hfit]

/-- The conditions of the outer loop of `fsRead` agree when `fsSize(fd)+1` and
`bytesRead+cursor` are in `INT_MIN .. INT_MAX`. -/
theorem readOuterCondI32_iff (cfg : Config) (s : FS) (fd c numb FBN br : Int)
    (hS : INT_MIN ≤ fsSize s fd) (hfit : fsSize s fd + 1 ≤ INT_MAX)
    (h1 : INT_MIN ≤ br + c) (h2 : br + c ≤ INT_MAX) :
    readOuterCondI32 cfg s fd c numb FBN br ↔ readOuterCond cfg s fd c numb FBN br := by
  have hmin1 : INT_MIN ≤ fsSize s fd + 1 := by unfold INT_MIN at hS ⊢; omega
  unfold readOuterCondI32 readOuterCond
  rw [wrapI32_of_range h1 h2, wrapI32_of_range hmin1 hfit]

/-- The inner loops of `fsReadI32` and of `fsRead` agree when
`fsSize(fd)+1+11*BYTESPERBLOCK/30` is in `INT_MIN .. INT_MAX`, and then
`bytesRead+cursor` stays in that range. -/
theorem fsReadInnerI32_eq (cfg : Config) (s : FS) (fd c numb : Int) (bio : Int → Int)
    (hB : 0 < cfg.BYTESPERBLOCK) (hB32 : 11 * cfg.BYTESPERBLOCK ≤ INT_MAX)
    (hS : INT_MIN ≤ fsSize s fd)
    (hfit : fsSize s fd + 1 + (11 * cfg.BYTESPERBLOCK).tdiv 30 ≤ INT_MAX) :
    ∀ (k : Nat) (ptr br : Int) (buf : Int → Int), INT_MIN ≤ br + c → br + c ≤ INT_MAX →
      fsReadInnerI32 cfg s fd c numb bio k ptr br buf =
          fsReadInner cfg s fd c numb bio k ptr br buf ∧
        (fsReadInner cfg s fd c numb bio k ptr br buf).1 + c ≤ INT_MAX := by
  intro k
  induction k with
  | zero =>
    intro ptr br buf _ h2
    exact ⟨rfl, h2⟩
  | succ k ih =>
    intro ptr br buf h1 h2
    have hiff := readInnerCondI32_iff cfg s fd c numb ptr br hB hB32 hS hfit h1 h2
    by_cases hc : readInnerCond cfg s fd c numb ptr br
    · have hc32 := hiff.2 hc
      have hlt : br + c < fsSize s fd + 1 + (11 * cfg.BYTESPERBLOCK).tdiv 30 := hc.2.2
      have := ih (ptr + 1) (br + 1) (Function.update buf br (bio ptr)) (by omega) (by omega)
      simp only [fsReadInnerI32, fsReadInner, hc, hc32, if_true]
      exact this
    · have hc32 : ¬ readInnerCondI32 cfg s fd c numb ptr br := fun h => hc (hiff.1 h)
      simp only [fsReadInnerI32, fsReadInner, hc, hc32, if_false]
      exact ⟨trivial, h2⟩

/-- The outer loops of `fsReadI32` and of `fsRead` agree when
`fsSize(fd)+1+11*BYTESPERBLOCK/30` is in `INT_MIN .. INT_MAX`, and then
`bytesRead+cursor` stays in that range. -/
theorem fsReadOuterI32_eq (cfg : Config) (fd c numb Inum S : Int)
    (hB : 0 < cfg.BYTESPERBLOCK) (hB32 : 11 * cfg.BYTESPERBLOCK ≤ INT_MAX)
    (hS : INT_MIN ≤ S) (hfit : S + 1 + (11 * cfg.BYTESPERBLOCK).tdiv 30 ≤ INT_MAX) :
    ∀ (k : Nat) (s : FS) (FBN ip br : Int) (buf : Int → Int), fsSize s fd = S →
      INT_MIN ≤ br + c → br + c ≤ INT_MAX →
        fsReadOuterI32 cfg fd c numb Inum k s FBN ip br buf =
            fsReadOuter cfg fd c numb Inum k s FBN ip br buf ∧
          (fsReadOuter cfg fd c numb Inum k s FBN ip br buf).1 + c ≤ INT_MAX := by
  have hL := tdiv_slack_nonneg cfg hB
  intro k
  induction k with
  | zero =>
    intro s FBN ip br buf _ _ h2
    exact ⟨rfl, h2⟩
  | succ k ih =>
    intro s FBN ip br buf hsz h1 h2
    have hiff := readOuterCondI32_iff cfg s fd c numb FBN br (by rw [hsz]; exact hS)
      (by rw [hsz]; omega) h1 h2
    by_cases hc : readOuterCond cfg s fd c numb FBN br
    · have hc32 := hiff.2 hc
      have hsz1 : fsSize (bfsRead s Inum FBN).2 fd = S := by
        rw [(bfsRead_frame s Inum FBN).fsSize fd, hsz]
      have hin := fsReadInnerI32_eq cfg (bfsRead s Inum FBN).2 fd c numb (bfsRead s Inum FBN).1
        hB hB32 (by rw [hsz1]; exact hS) (by rw [hsz1]; exact hfit)
        (cfg.BYTESPERBLOCK - ip).toNat ip br buf h1 h2
      have hcnt := fsReadInner_count cfg (bfsRead s Inum FBN).2 fd c numb (bfsRead s Inum FBN).1
        (cfg.BYTESPERBLOCK - ip).toNat ip br buf
      have := ih (bfsRead s Inum FBN).2 (FBN + 1) 0
        (fsReadInner cfg (bfsRead s Inum FBN).2 fd c numb (bfsRead s Inum FBN).1
          (cfg.BYTESPERBLOCK - ip).toNat ip br buf).1
        (fsReadInner cfg (bfsRead s Inum FBN).2 fd c numb (bfsRead s Inum FBN).1
          (cfg.BYTESPERBLOCK - ip).toNat ip br buf).2 hsz1 (by omega) hin.2
      simp only [fsReadOuterI32, fsReadOuter, hc, hc32, if_true, hin.1]
      exact this
    · have hc32 : ¬ readOuterCondI32 cfg s fd c numb FBN br := fun h => hc (hiff.1 h)
      simp only [fsReadOuterI32, fsReadOuter, hc, hc32, if_false]
      exact ⟨trivial, h2⟩

/-- The functions `fsReadI32` and `fsRead` agree, in the count, the buffer and
the state, when the cursor and the size are `i32` values and
`fsSize(fd)+1+11*BYTESPERBLOCK/30` is not above `INT_MAX`: no sum of `fsRead`
overflows then. -/
theorem fsReadI32_eq (cfg : Config) (s : FS) (fd numb : Int) (buf : Int → Int)
    (hB : 0 < cfg.BYTESPERBLOCK) (hB32 : 11 * cfg.BYTESPERBLOCK ≤ INT_MAX)
    (hS : INT_MIN ≤ fsSize s fd) (hc1 : INT_MIN ≤ bfsTell s fd) (hc2 : bfsTell s fd ≤ INT_MAX)
    (hfit : fsSize s fd + 1 + (11 * cfg.BYTESPERBLOCK).tdiv 30 ≤ INT_MAX) :
    fsReadI32 cfg s fd numb buf = fsRead cfg s fd numb buf := by
  have h := fsReadOuterI32_eq cfg fd (bfsTell s fd) numb (bfsFdToInum s fd) (fsSize s fd)
    hB hB32 hS hfit (cfg.MAXFBN - (bfsTell s fd).tdiv cfg.BYTESPERBLOCK).toNat s
    ((bfsTell s fd).tdiv cfg.BYTESPERBLOCK)
    (bfsTell s fd - cfg.BYTESPERBLOCK * (bfsTell s fd).tdiv cfg.BYTESPERBLOCK) 0 buf rfl
    (by omega) (by omega)
  have hcnt := fsReadOuter_count cfg fd (bfsTell s fd) numb (bfsFdToInum s fd)
    (cfg.MAXFBN - (bfsTell s fd).tdiv cfg.BYTESPERBLOCK).toNat s
    ((bfsTell s fd).tdiv cfg.BYTESPERBLOCK)
    (bfsTell s fd - cfg.BYTESPERBLOCK * (bfsTell s fd).tdiv cfg.BYTESPERBLOCK) 0 buf
  have hl : fsReadLoopsI32 cfg s fd numb buf = fsReadLoops cfg s fd numb buf := h.1
  have hr : (fsReadLoops cfg s fd numb buf).1 + bfsTell s fd ≤ INT_MAX := h.2
  have hr0 : 0 ≤ (fsReadLoops cfg s fd numb buf).1 := hcnt.1
  unfold fsReadI32 fsRead
  rw [hl, wrapI32_of_range (by omega) (by omega)]

/-- Past the size `fsReadI32` copies nothing: with the cursor an `i32` value
above the size, the outer loop is not entered and the call returns 0. -/
theorem fsReadI32_past_size (cfg : Config) (s : FS) (fd numb : Int) (buf : Int → Int)
    (hS : INT_MIN ≤ fsSize s fd) (hc2 : bfsTell s fd ≤ INT_MAX)
    (hgt : fsSize s fd < bfsTell s fd) :
    (fsReadI32 cfg s fd numb buf).1 = 0 := by
  have hno : ¬ readOuterCondI32 cfg s fd (bfsTell s fd) numb
      ((bfsTell s fd).tdiv cfg.BYTESPERBLOCK) 0 := by
    intro h
    have h3 := h.2.2
    rw [wrapI32_of_range (by omega) (by omega),
      wrapI32_of_range (by unfold INT_MIN at hS ⊢; omega) (by omega)] at h3
    omega
  show (fsReadOuterI32 cfg fd (bfsTell s fd) numb (bfsFdToInum s fd)
    (cfg.MAXFBN - (bfsTell s fd).tdiv cfg.BYTESPERBLOCK).toNat s
    ((bfsTell s fd).tdiv cfg.BYTESPERBLOCK)
    (bfsTell s fd - cfg.BYTESPERBLOCK * (bfsTell s fd).tdiv cfg.BYTESPERBLOCK) 0 buf).1 = 0
  cases (cfg.MAXFBN - (bfsTell s fd).tdiv cfg.BYTESPERBLOCK).toNat with
  | zero => rfl
  | succ k => simp only [fsReadOuterI32, hno, if_false]

/-! ## The claims -/

set_option maxRecDepth 1000000 in
/-- Claim C1, the code at a failing input: on a fresh file with 512-byte
blocks, `fsWrite` of 513 bytes returns 0 and the read-back after a seek to 0
returns 513, yet byte 512 of the buffer read is byte 0 of the data written and
not byte 512; and the read-back of a write of 5000 bytes returns 1724. -/
theorem writeSeekRead_second_block_wrong :
    (fsWrite cfg512 freshFS 0 513 sampleData).1 = 0 ∧
      (writeSeekRead cfg512 freshFS 0 513 sampleData zeroBuf).1 = 513 ∧
      (writeSeekRead cfg512 freshFS 0 513 sampleData zeroBuf).2.1 512 = sampleData 0 ∧
      (writeSeekRead cfg512 freshFS 0 513 sampleData zeroBuf).2.1 512 ≠ sampleData 512 ∧
      (writeSeekRead cfg512 freshFS 0 5000 sampleData zeroBuf).1 = 1724 := by
  decide

/-- Claim C2, the code at a failing input: on a fresh file (open descriptor,
cursor 0) with 512-byte blocks, `fsWrite` of 5000 bytes returns 0 and leaves
the cursor at 1536, not at 5000. -/
theorem fsWrite_5000_cursor :
    OpenFd freshFS 0 ∧ fsTell freshFS 0 = 0 ∧
      (fsWrite cfg512 freshFS 0 5000 sampleData).1 = 0 ∧
      fsTell (fsWrite cfg512 freshFS 0 5000 sampleData).2 0 = 1536 := by
  decide

/-- Claim C3, the code at a failing input: on a fresh file of size 0 with
512-byte blocks, `fsWrite` of 5000 bytes at cursor 0 returns 0 and leaves the
size at 1536, not at 5000. -/
theorem fsWrite_5000_size :
    fsSize freshFS 0 = 0 ∧
      (fsWrite cfg512 freshFS 0 5000 sampleData).1 = 0 ∧
      fsSize (fsWrite cfg512 freshFS 0 5000 sampleData).2 0 = 1536 := by
  decide

/-- Claim C4: a partial write preserves its neighbours.  Let logical block `b`
of the file be mapped to a valid physical block and lie inside the current
size, and let `0 ≤ k`, `0 ≤ m`, `k + m ≤ BYTESPERBLOCK`.  After `fsWrite` of
`m` bytes `data` at cursor `b * BYTESPERBLOCK + k`, byte `j` of block `b` is
`data[j - k]` for `k ≤ j < k + m` and its previous value elsewhere.  That the
block lies inside the size is used only for `k = BYTESPERBLOCK`, where the
write is empty and the cursor is on the first byte of block `b + 1`. -/
theorem fsWrite_partial_preserves (cfg : Config) (s : FS) (fd b k m d : Int)
    (data : Int → Int) (hB : 0 < cfg.BYTESPERBLOCK)
    (hi0 : 0 ≤ bfsFdToInum s fd) (hi1 : bfsFdToInum s fd ≤ cfg.MAXINUM)
    (hb0 : 0 ≤ b) (hb1 : b ≤ cfg.MAXFBN)
    (hmap : s.fbnMap (bfsFdToInum s fd) b = some d)
    (hd0 : 0 ≤ d) (hd1 : d ≤ cfg.BLOCKSPERDISK)
    (hsize : k < cfg.BYTESPERBLOCK ∨ (b + 1) * cfg.BYTESPERBLOCK ≤ fsSize s fd)
    (hk : 0 ≤ k) (hm : 0 ≤ m) (hkm : k + m ≤ cfg.BYTESPERBLOCK)
    (hcur : fsTell s fd = b * cfg.BYTESPERBLOCK + k) :
    ∀ j, 0 ≤ j → j < cfg.BYTESPERBLOCK →
      (bfsRead (fsWrite cfg s fd m data).2 (bfsFdToInum s fd) b).1 j =
        if k ≤ j ∧ j < k + m then data (j - k) else (bfsRead s (bfsFdToInum s fd) b).1 j := by
  intro j hj0 hj1
  by_cases hkB : k < cfg.BYTESPERBLOCK
  · exact (fsWrite_partial_lt cfg s fd b k m d data hB hi0 hi1 hb0 hb1 hmap hd0 hd1 hk
      hkm hkB hcur).2 j hj0 hj1
  · have hkeq : k = cfg.BYTESPERBLOCK := by omega
    have hm0 : m = 0 := by omega
    have hin : (b + 1) * cfg.BYTESPERBLOCK ≤ fsSize s fd := by
      rcases hsize with h | h
      · exact absurd h hkB
      · exact h
    subst hkeq
    subst hm0
    rw [if_neg (by omega)]
    exact fsWrite_partial_eq cfg s fd b d data hB hb0 hmap hin hcur j

/-- Claim C4 on the spec's scenario: one block written, bytes `[10, 20)`
overwritten with sevens; byte 15 of the block read back. -/
theorem fsWrite_partial_preserves_witness :
    (bfsRead (fsWrite cfg512 oneBlockAt10 0 10 sevens).2 (bfsFdToInum oneBlockAt10 0) 0).1 15 =
      if (10 : Int) ≤ 15 ∧ (15 : Int) < 10 + 10 then sevens (15 - 10)
      else (bfsRead oneBlockAt10 (bfsFdToInum oneBlockAt10 0) 0).1 15 :=
  fsWrite_partial_preserves cfg512 oneBlockAt10 0 0 10 10 12 sevens (by decide) (by decide)
    (by decide) (by decide) (by decide) (by decide) (by decide) (by decide)
    (Or.inr (by decide)) (by decide) (by decide) (by decide) (by decide) 15 (by decide)
    (by decide)

/-- Claim C5, the code at a failing input: on the file of 100 bytes with the
cursor at 0, `fsRead` of 200 bytes returns 200, not `min 200 (100 - 0) = 100`. -/
theorem fsRead_past_eof :
    fsTell file100AtStart 0 = 0 ∧ fsSize file100AtStart 0 = 100 ∧
      (fsRead cfg512 file100AtStart 0 200 zeroBuf).1 = 200 := by
  decide

/-- Claim C6, the code at a failing input: after the file of 100 bytes is read
to its end (100 bytes returned, cursor 100 equal to the size), a further
`fsRead` of 1 byte returns 1, not 0, and moves the cursor to 101. -/
theorem fsRead_again_at_eof :
    (fsRead cfg512 file100AtStart 0 100 zeroBuf).1 = 100 ∧
      fsTell (fsRead cfg512 file100AtStart 0 100 zeroBuf).2.2 0 = 100 ∧
      fsSize (fsRead cfg512 file100AtStart 0 100 zeroBuf).2.2 0 = 100 ∧
      (fsRead cfg512 (fsRead cfg512 file100AtStart 0 100 zeroBuf).2.2 0 1 zeroBuf).1 = 1 ∧
      fsTell (fsRead cfg512 (fsRead cfg512 file100AtStart 0 100 zeroBuf).2.2 0 1 zeroBuf).2.2 0
        = 101 := by
  decide

/-- Claim C7: on an open descriptor with cursor `c`, whatever `numb` is,
`fsRead` returns a count `r` with `0 ≤ r ≤ max numb 0`, the cursor after the
call is `c + r`, and so the cursor does not decrease. -/
theorem fsRead_count_cursor (cfg : Config) (s : FS) (fd numb : Int) (buf : Int → Int)
    (hfd : OpenFd s fd) :
    0 ≤ (fsRead cfg s fd numb buf).1 ∧
      (fsRead cfg s fd numb buf).1 ≤ max numb 0 ∧
      fsTell (fsRead cfg s fd numb buf).2.2 fd = fsTell s fd + (fsRead cfg s fd numb buf).1 ∧
      fsTell s fd ≤ fsTell (fsRead cfg s fd numb buf).2.2 fd := by
  have hcount := fsReadOuter_count cfg fd (bfsTell s fd) numb (bfsFdToInum s fd)
    (cfg.MAXFBN - (bfsTell s fd).tdiv cfg.BYTESPERBLOCK).toNat s
    ((bfsTell s fd).tdiv cfg.BYTESPERBLOCK)
    (bfsTell s fd - cfg.BYTESPERBLOCK * (bfsTell s fd).tdiv cfg.BYTESPERBLOCK) 0 buf
  have hfr := fsRead_frame cfg s fd numb buf
  have h1 : 0 ≤ (fsRead cfg s fd numb buf).1 := hcount.1
  have h2 : (fsRead cfg s fd numb buf).1 ≤ max numb 0 := by
    rw [max_comm]; exact hcount.2
  have h3 : fsTell (fsRead cfg s fd numb buf).2.2 fd =
      fsTell s fd + (fsRead cfg s fd numb buf).1 := by
    simp only [fsRead, fsTell, bfsTell, bfsSetCursor, bfsFindOFTE, hfr.fdOfte, hfr.inumOfte]
    rw [show s.fdOfte fd = s.inumOfte (bfsFdToInum s fd) from hfd, Function.update_same]
  exact ⟨h1, h2, h3, by omega⟩

/-- Claim C7 on the file of 100 bytes, reading 40 bytes from offset 0. -/
theorem fsRead_count_cursor_witness :
    0 ≤ (fsRead cfg512 file100AtStart 0 40 zeroBuf).1 ∧
      (fsRead cfg512 file100AtStart 0 40 zeroBuf).1 ≤ max 40 0 ∧
      fsTell (fsRead cfg512 file100AtStart 0 40 zeroBuf).2.2 0 =
        fsTell file100AtStart 0 + (fsRead cfg512 file100AtStart 0 40 zeroBuf).1 ∧
      fsTell file100AtStart 0 ≤ fsTell (fsRead cfg512 file100AtStart 0 40 zeroBuf).2.2 0 :=
  fsRead_count_cursor cfg512 file100AtStart 0 40 zeroBuf (by decide)

/-- Claim C8: `fsRead` delivers the bytes of the file in order.  With cursor
`c ≥ 0` and `r` the value returned, for every `i` with `0 ≤ i < r` the byte
`buf[i]` is the byte at position `(c + i) % BYTESPERBLOCK` of logical block
`(c + i) / BYTESPERBLOCK` as the block service stages it in the state reached;
and when that logical block was mapped before the call, it is the byte of its
physical block on the disk before the call. -/
theorem fsRead_bytes (cfg : Config) (s : FS) (fd numb : Int) (buf : Int → Int)
    (hB : 0 < cfg.BYTESPERBLOCK) (hc : 0 ≤ fsTell s fd) :
    ∀ i, 0 ≤ i → i < (fsRead cfg s fd numb buf).1 →
      (fsRead cfg s fd numb buf).2.1 i =
          (bfsRead (fsRead cfg s fd numb buf).2.2 (bfsFdToInum s fd)
            ((fsTell s fd + i) / cfg.BYTESPERBLOCK)).1 ((fsTell s fd + i) % cfg.BYTESPERBLOCK) ∧
        ∀ d, s.fbnMap (bfsFdToInum s fd) ((fsTell s fd + i) / cfg.BYTESPERBLOCK) = some d →
          (fsRead cfg s fd numb buf).2.1 i = s.disk d ((fsTell s fd + i) % cfg.BYTESPERBLOCK) := by
  intro i h0 hi
  have hc1 : 0 ≤ bfsTell s fd := hc
  have hdiv : (bfsTell s fd).tdiv cfg.BYTESPERBLOCK = bfsTell s fd / cfg.BYTESPERBLOCK :=
    Int.tdiv_eq_ediv hc1 (le_of_lt hB)
  have hdel := fsReadOuter_delivered cfg fd (bfsTell s fd) numb (bfsFdToInum s fd) hB
    (cfg.MAXFBN - (bfsTell s fd).tdiv cfg.BYTESPERBLOCK).toNat s
    ((bfsTell s fd).tdiv cfg.BYTESPERBLOCK)
    (bfsTell s fd - cfg.BYTESPERBLOCK * (bfsTell s fd).tdiv cfg.BYTESPERBLOCK) 0 buf
    (le_refl _)
    (Or.inl (by
      rw [hdiv]
      have h1 := Int.emod_add_ediv (bfsTell s fd) cfg.BYTESPERBLOCK
      have h2 := Int.emod_nonneg (bfsTell s fd) (ne_of_gt hB)
      have h3 := Int.emod_lt_of_pos (bfsTell s fd) hB
      refine ⟨by linarith [mul_comm cfg.BYTESPERBLOCK (bfsTell s fd / cfg.BYTESPERBLOCK)],
        by linarith, by linarith⟩))
    (fun j hj0 hj => absurd hj (not_lt.mpr hj0))
  have hfr := fsRead_frame cfg s fd numb buf
  obtain ⟨d, hd, hb⟩ := hdel i h0 hi
  have hmap : (fsRead cfg s fd numb buf).2.2.fbnMap (bfsFdToInum s fd)
      ((fsTell s fd + i) / cfg.BYTESPERBLOCK) = some d := hd
  have hdisk : (fsRead cfg s fd numb buf).2.2.disk = s.disk := hfr.disk
  have hval : (fsRead cfg s fd numb buf).2.1 i =
      s.disk d ((fsTell s fd + i) % cfg.BYTESPERBLOCK) := by
    rw [← hfr.disk]; exact hb
  refine ⟨?_, ?_⟩
  · rw [bfsRead_of_mapped _ _ _ d hmap, hdisk]; exact hval
  · intro d0 hd0
    have := hfr.mapped _ _ _ hd0
    have hdd : d0 = d := by
      have h2 : some d0 = some d := this.symm.trans hd
      exact Option.some.inj h2
    rw [hdd]; exact hval

/-- Claim C8 on a read that starts mid-block and crosses into the next block:
13 bytes from offset 500 of the file of 513 bytes; byte 12 of the buffer is
byte 0 of logical block 1. -/
theorem fsRead_bytes_witness :
    (fsRead cfg512 twoBlocksAt500 0 13 zeroBuf).2.1 12 =
        (bfsRead (fsRead cfg512 twoBlocksAt500 0 13 zeroBuf).2.2 (bfsFdToInum twoBlocksAt500 0)
          ((fsTell twoBlocksAt500 0 + 12) / cfg512.BYTESPERBLOCK)).1
          ((fsTell twoBlocksAt500 0 + 12) % cfg512.BYTESPERBLOCK) ∧
      ∀ d, twoBlocksAt500.fbnMap (bfsFdToInum twoBlocksAt500 0)
          ((fsTell twoBlocksAt500 0 + 12) / cfg512.BYTESPERBLOCK) = some d →
        (fsRead cfg512 twoBlocksAt500 0 13 zeroBuf).2.1 12 =
          twoBlocksAt500.disk d ((fsTell twoBlocksAt500 0 + 12) % cfg512.BYTESPERBLOCK) :=
  fsRead_bytes cfg512 twoBlocksAt500 0 13 zeroBuf (by decide) (by decide) 12 (by decide)
    (by decide)

/-- Claim C9: on an open descriptor, for every offset `o ≥ 0`,
`fsSeek(fd, o, SEEK_SET)` returns 0 and a following `fsTell(fd)` returns `o`. -/
theorem fsSeek_set_tell (cfg : Config) (s : FS) (fd o : Int) (hfd : OpenFd s fd)
    (ho : 0 ≤ o) :
    (fsSeek cfg s fd o SEEK_SET).ret = some 0 ∧
      fsTell (fsSeek cfg s fd o SEEK_SET).state fd = o := by
  have hseek : fsSeek cfg s fd o SEEK_SET = Outcome.returned 0
      { s with oftCurs := Function.update s.oftCurs (bfsFindOFTE s (bfsFdToInum s fd)) o } := by
    simp only [fsSeek, if_neg (not_lt.mpr ho), if_true]
  rw [hseek]
  refine ⟨rfl, ?_⟩
  simp only [Outcome.state, fsTell, bfsTell]
  rw [show s.fdOfte fd = bfsFindOFTE s (bfsFdToInum s fd) from hfd, Function.update_same]

/-- Claim C9 on the file of 100 bytes: seek to offset 7. -/
theorem fsSeek_set_tell_witness :
    (fsSeek cfg512 file100 0 7 SEEK_SET).ret = some 0 ∧
      fsTell (fsSeek cfg512 file100 0 7 SEEK_SET).state 0 = 7 :=
  fsSeek_set_tell cfg512 file100 0 7 (by decide) (by decide)

/-- Claim C11 fails as stated: on the file of 100 bytes with the cursor at 100,
`fsSeek(fd, -5, SEEK_CUR)` and `fsSeek(fd, -5, SEEK_END)` end in `FATAL` and
leave the cursor at 100, although `100 + (-5) = 95` is not negative. -/
theorem fsSeek_relative_negative_offset :
    fsTell file100 0 = 100 ∧ fsSize file100 0 = 100 ∧
      (fsSeek cfg512 file100 0 (-5) SEEK_CUR).ret = none ∧
      fsTell (fsSeek cfg512 file100 0 (-5) SEEK_CUR).state 0 = 100 ∧
      (fsSeek cfg512 file100 0 (-5) SEEK_END).ret = none ∧
      fsTell (fsSeek cfg512 file100 0 (-5) SEEK_END).state 0 = 100 := by
  decide

/-- Claim C11 as amended, with the additions of `fsSeek` made in `i32`.  On an
open descriptor whose cursor and size are `i32` values: every seek with a
negative offset ends in `FATAL(EBADCURS)` in the state of the call, whatever
the mode; for an offset that is not negative, `SEEK_SET` returns 0 and sets the
cursor to `offset`, `SEEK_CUR` returns 0 and sets the cursor to
`cursor + offset` when that sum is not above `INT_MAX`, `SEEK_END` returns 0
and sets the cursor to `size + offset` when that sum is not above `INT_MAX`;
and a seek with one of these three modes whose sum is not above `INT_MAX`
fails exactly when the offset is negative. -/
theorem fsSeekI32_relative (cfg : Config) (s : FS) (fd offset : Int) (hfd : OpenFd s fd)
    (hc : INT_MIN ≤ fsTell s fd) (hS : INT_MIN ≤ fsSize s fd) :
    (offset < 0 →
        ∀ whence, fsSeekI32 cfg s fd offset whence = Outcome.aborted cfg.EBADCURS s) ∧
      (0 ≤ offset →
        ((fsSeekI32 cfg s fd offset SEEK_SET).ret = some 0 ∧
          fsTell (fsSeekI32 cfg s fd offset SEEK_SET).state fd = offset) ∧
        (fsTell s fd + offset ≤ INT_MAX →
          (fsSeekI32 cfg s fd offset SEEK_CUR).ret = some 0 ∧
            fsTell (fsSeekI32 cfg s fd offset SEEK_CUR).state fd = fsTell s fd + offset) ∧
        (fsSize s fd + offset ≤ INT_MAX →
          (fsSeekI32 cfg s fd offset SEEK_END).ret = some 0 ∧
            fsTell (fsSeekI32 cfg s fd offset SEEK_END).state fd = fsSize s fd + offset)) ∧
      (∀ whence,
        whence = SEEK_SET ∨ (whence = SEEK_CUR ∧ fsTell s fd + offset ≤ INT_MAX) ∨
            (whence = SEEK_END ∧ fsSize s fd + offset ≤ INT_MAX) →
          ((fsSeekI32 cfg s fd offset whence).ret = none ↔ offset < 0)) := by
  have hslot : s.fdOfte fd = bfsFindOFTE s (bfsFdToInum s fd) := hfd
  have hc1 : INT_MIN ≤ s.oftCurs (bfsFindOFTE s (bfsFdToInum s fd)) := by
    rw [← hslot]; exact hc
  have h1 : SEEK_CUR ≠ SEEK_SET := by decide
  have h2 : SEEK_END ≠ SEEK_SET := by decide
  have h3 : SEEK_END ≠ SEEK_CUR := by decide
  have hset : 0 ≤ offset → (fsSeekI32 cfg s fd offset SEEK_SET).ret = some 0 ∧
      fsTell (fsSeekI32 cfg s fd offset SEEK_SET).state fd = offset := by
    intro ho
    have ho1 : ¬ offset < 0 := not_lt.mpr ho
    simp only [fsSeekI32, ho1, if_false, if_true, Outcome.ret, Outcome.state, fsTell, bfsTell]
    rw [hslot]
    simp
  have hcur : 0 ≤ offset → fsTell s fd + offset ≤ INT_MAX →
      (fsSeekI32 cfg s fd offset SEEK_CUR).ret = some 0 ∧
        fsTell (fsSeekI32 cfg s fd offset SEEK_CUR).state fd = fsTell s fd + offset := by
    intro ho hfit
    have ho1 : ¬ offset < 0 := not_lt.mpr ho
    have hfit1 : s.oftCurs (bfsFindOFTE s (bfsFdToInum s fd)) + offset ≤ INT_MAX := by
      rw [← hslot]; exact hfit
    simp only [fsSeekI32, ho1, if_false, h1, if_true, Outcome.ret, Outcome.state, fsTell,
      bfsTell]
    rw [wrapI32_of_range (by omega) hfit1, hslot]
    simp
  have hend : 0 ≤ offset → fsSize s fd + offset ≤ INT_MAX →
      (fsSeekI32 cfg s fd offset SEEK_END).ret = some 0 ∧
        fsTell (fsSeekI32 cfg s fd offset SEEK_END).state fd = fsSize s fd + offset := by
    intro ho hfit
    have ho1 : ¬ offset < 0 := not_lt.mpr ho
    simp only [fsSeekI32, ho1, if_false, h2, h3, if_true, Outcome.ret, Outcome.state, fsTell,
      bfsTell]
    rw [wrapI32_of_range (by omega) hfit, hslot]
    simp
  have hneg : offset < 0 →
      ∀ whence, fsSeekI32 cfg s fd offset whence = Outcome.aborted cfg.EBADCURS s := by
    intro ho whence
    simp only [fsSeekI32, ho, if_true]
  refine ⟨hneg, fun ho => ⟨hset ho, hcur ho, hend ho⟩, ?_⟩
  intro whence hw
  by_cases ho : offset < 0
  · rw [hneg ho whence]
    exact ⟨fun _ => ho, fun _ => rfl⟩
  · have ho0 : 0 ≤ offset := not_lt.mp ho
    have hret : (fsSeekI32 cfg s fd offset whence).ret = some 0 := by
      rcases hw with hw | ⟨hw, hfit⟩ | ⟨hw, hfit⟩
      · rw [hw]; exact (hset ho0).1
      · rw [hw]; exact (hcur ho0 hfit).1
      · rw [hw]; exact (hend ho0 hfit).1
    rw [hret]
    exact ⟨fun h => Option.noConfusion h, fun h => absurd h ho⟩

/-- Claim C11 as amended, on the file of 100 bytes (cursor 100, size 100): the
offset 5 with `SEEK_CUR` and with `SEEK_END` moves the cursor to 105, and the
offset -5 ends in `FATAL(EBADCURS)` for every mode. -/
theorem fsSeekI32_relative_witness :
    OpenFd file100 0 ∧ INT_MIN ≤ fsTell file100 0 ∧ INT_MIN ≤ fsSize file100 0 ∧
      ((fsSeekI32 cfg512 file100 0 5 SEEK_CUR).ret = some 0 ∧
        fsTell (fsSeekI32 cfg512 file100 0 5 SEEK_CUR).state 0 = fsTell file100 0 + 5) ∧
      ((fsSeekI32 cfg512 file100 0 5 SEEK_END).ret = some 0 ∧
        fsTell (fsSeekI32 cfg512 file100 0 5 SEEK_END).state 0 = fsSize file100 0 + 5) ∧
      (∀ whence,
        fsSeekI32 cfg512 file100 0 (-5) whence = Outcome.aborted cfg512.EBADCURS file100) :=
  ⟨by decide, by decide, by decide,
    ((fsSeekI32_relative cfg512 file100 0 5 (by decide) (by decide) (by decide)).2.1
      (by decide)).2.1 (by decide),
    ((fsSeekI32_relative cfg512 file100 0 5 (by decide) (by decide) (by decide)).2.1
      (by decide)).2.2 (by decide),
    (fsSeekI32_relative cfg512 file100 0 (-5) (by decide) (by decide) (by decide)).1
      (by decide)⟩

/-- Claim C12: a seek alone changes neither a size nor the allocation.  For
every descriptor, offset and mode, the state after `fsSeek` has the sizes, the
logical-to-physical mapping, the allocation count and the disk of the state
before, and `fsSize` of every descriptor is unchanged. -/
theorem fsSeek_keeps_size_and_mapping (cfg : Config) (s : FS) (fd offset whence : Int) :
    (fsSeek cfg s fd offset whence).state.size = s.size ∧
      (fsSeek cfg s fd offset whence).state.fbnMap = s.fbnMap ∧
      (fsSeek cfg s fd offset whence).state.nAlloc = s.nAlloc ∧
      (fsSeek cfg s fd offset whence).state.disk = s.disk ∧
      ∀ fd1, fsSize (fsSeek cfg s fd offset whence).state fd1 = fsSize s fd1 := by
  unfold fsSeek
  split_ifs <;> exact ⟨rfl, rfl, rfl, rfl, fun _ => rfl⟩

set_option maxRecDepth 1000000 in
/-- Claim C13 fails as stated.  With descriptors 1 and 2 open on inode 0, whose
entry of the open-file table both use, `fsSeek`, `fsRead` and `fsWrite` on
descriptor 1 change `fsTell` of descriptor 2 from 0 to 7, 1 and 3; and when
each descriptor has an entry of its own and `bfsFindOFTE` finds that of
descriptor 1, the same calls on descriptor 2 change `fsTell` of descriptor 1. -/
theorem cursor_not_per_descriptor :
    bfsFdToInum sharedFS 1 = bfsFdToInum sharedFS 2 ∧
      OpenFd sharedFS 1 ∧ OpenFd sharedFS 2 ∧ fsTell sharedFS 2 = 0 ∧
      fsTell (fsSeek cfg512 sharedFS 1 7 SEEK_SET).state 2 = 7 ∧
      fsTell (fsRead cfg512 sharedFS 1 1 zeroBuf).2.2 2 = 1 ∧
      fsTell (fsWrite cfg512 sharedFS 1 3 sevens).2 2 = 3 ∧
      bfsFdToInum ownEntryFS 2 = bfsFdToInum ownEntryFS 1 ∧
      ownEntryFS.fdOfte 2 ≠ ownEntryFS.fdOfte 1 ∧ fsTell ownEntryFS 1 = 0 ∧
      fsTell (fsSeek cfg512 ownEntryFS 2 7 SEEK_SET).state 1 = 7 ∧
      fsTell (fsRead cfg512 ownEntryFS 2 1 zeroBuf).2.2 1 = 1 ∧
      fsTell (fsWrite cfg512 ownEntryFS 2 3 sevens).2 1 = 3 := by
  decide

/-- Claim C13 as amended: the cursor belongs to the entry of the open-file
table that `bfsFindOFTE` finds for the inode, not to the descriptor.  `fsSeek`,
`fsRead` and `fsWrite` on descriptor `d1` leave `fsTell(d2)` unchanged for
every descriptor `d2` bound to another entry than the one found for the inode
of `d1`; and when `d2` is bound to that entry, as two descriptors open on the
same inode are, `fsSeek(d1, offset, SEEK_SET)` with `offset ≥ 0` makes
`fsTell(d2)` equal to `offset`. -/
theorem cursor_per_entry (cfg : Config) (s : FS) (d1 d2 offset whence numb : Int)
    (buf : Int → Int) :
    (s.fdOfte d2 ≠ bfsFindOFTE s (bfsFdToInum s d1) →
        fsTell (fsSeek cfg s d1 offset whence).state d2 = fsTell s d2 ∧
          fsTell (fsRead cfg s d1 numb buf).2.2 d2 = fsTell s d2 ∧
          fsTell (fsWrite cfg s d1 numb buf).2 d2 = fsTell s d2) ∧
      (s.fdOfte d2 = bfsFindOFTE s (bfsFdToInum s d1) → 0 ≤ offset →
        fsTell (fsSeek cfg s d1 offset SEEK_SET).state d2 = offset) := by
  refine ⟨fun hne => ⟨?_, ?_, ?_⟩, fun heq ho => ?_⟩
  · unfold fsSeek
    split_ifs <;> simp only [Outcome.state, fsTell, bfsTell] <;>
      first
        | rfl
        | exact Function.update_noteq hne _ _
  · have hfr := fsRead_frame cfg s d1 numb buf
    simp only [fsRead, fsTell, bfsTell, bfsSetCursor, hfr.fdOfte]
    rw [show bfsFindOFTE (fsReadLoops cfg s d1 numb buf).2.2 (bfsFdToInum s d1) =
      bfsFindOFTE s (bfsFdToInum s d1) from by simp only [bfsFindOFTE, hfr.inumOfte]]
    rw [Function.update_noteq hne, hfr.oftCurs]
  · exact (fsWriteLoop_cursorFrame cfg d1 buf _ 0 s _ numb).fsTell d2 hne
  · simp only [fsSeek, if_neg (not_lt.mpr ho), if_true, Outcome.state, fsTell, bfsTell]
    rw [heq, Function.update_same]

/-- Claim C13 as amended, on two descriptors with entries of their own
(descriptors 1 and 2 of the state in which descriptor `fd` is bound to inode
`fd` and entry `fd`: a seek to 7, a read of 5 bytes and a write of 5 bytes on
descriptor 1), and on two descriptors open on the same inode (a seek to 7 on
descriptor 1). -/
theorem cursor_per_entry_witness :
    (fsTell (fsSeek cfg512 file100 1 7 SEEK_SET).state 2 = fsTell file100 2 ∧
        fsTell (fsRead cfg512 file100 1 5 sevens).2.2 2 = fsTell file100 2 ∧
        fsTell (fsWrite cfg512 file100 1 5 sevens).2 2 = fsTell file100 2) ∧
      fsTell (fsSeek cfg512 sharedFS 1 7 SEEK_SET).state 2 = 7 :=
  ⟨(cursor_per_entry cfg512 file100 1 2 7 SEEK_SET 5 sevens).1 (by decide),
    (cursor_per_entry cfg512 sharedFS 1 2 7 SEEK_SET 5 sevens).2 (by decide) (by decide)⟩

/-- Claim C14, the code at a failing input: on the fresh file with the cursor
on the first byte of logical block 261 (`MAXFBN = 260`), `fsWrite` of 1 byte
returns `EBADFBN`, yet logical block 261, unmapped before the call, is mapped
to physical block 10 after it and one block has left the free list: the only
request of the call is the `bfsFbnToDbn` of line 183, made before the checks of
lines 186-188. -/
theorem fsWrite_rejected_yet_mapped :
    fsTell pastLastBlock 0 = 261 * 512 ∧
      pastLastBlock.fbnMap 0 261 = none ∧ pastLastBlock.nAlloc = 0 ∧
      (fsWrite cfg512 pastLastBlock 0 1 sevens).1 = cfg512.EBADFBN ∧
      (fsWrite cfg512 pastLastBlock 0 1 sevens).2.fbnMap 0 261 = some 10 ∧
      (fsWrite cfg512 pastLastBlock 0 1 sevens).2.nAlloc = 1 ∧
      newEvents pastLastBlock (fsWrite cfg512 pastLastBlock 0 1 sevens).2 =
        [Event.fbnToDbn 0 261] := by
  decide

/-- Claim C15, the code at a failing input: on the file of 100 bytes (cursor
100, size 100, logical block 0 mapped to physical block 12, logical block 1 to
physical block 11), `fsWrite` of 10 bytes returns 0 after asking
`bfsAllocBlock` for logical block 1, which the write does not touch, and for
logical block 0, which was mapped; block 0 ends up mapped to physical block 14,
and physical blocks 14 and 13 are written. -/
theorem fsWrite_small_growth_allocates :
    fsTell file100 0 = 100 ∧ fsSize file100 0 = 100 ∧
      file100.fbnMap 0 0 = some 12 ∧ file100.fbnMap 0 1 = some 11 ∧
      (fsWrite cfg512 file100 0 10 sevens).1 = 0 ∧
      newEvents file100 (fsWrite cfg512 file100 0 10 sevens).2 =
        [Event.fbnToDbn 0 0, Event.read 0 0, Event.memcpy 100 10, Event.allocBlock 0 1,
          Event.allocBlock 0 0, Event.bioWrite 14, Event.setCursor 0 110, Event.bioWrite 13] ∧
      (fsWrite cfg512 file100 0 10 sevens).2.fbnMap 0 0 = some 14 ∧
      (fsWrite cfg512 file100 0 10 sevens).2.fbnMap 0 1 = some 13 := by
  decide

/-- Claim C16, the code at a failing input: on the fresh file with the cursor
on the first byte of logical block `MAXFBN = 260`, `fsWrite` of 1 byte returns 0
after asking `bfsAllocBlock` for logical block 261; and with the cursor in
logical block 261 the write asks `bfsFbnToDbn` for block 261 before it returns
`EBADFBN`. -/
theorem fsWrite_requests_past_maxfbn :
    fsTell atLastBlock 0 = 260 * 512 ∧ cfg512.MAXFBN = 260 ∧
      (fsWrite cfg512 atLastBlock 0 1 sevens).1 = 0 ∧
      newEvents atLastBlock (fsWrite cfg512 atLastBlock 0 1 sevens).2 =
        [Event.fbnToDbn 0 260, Event.read 0 260, Event.memcpy 0 1, Event.allocBlock 0 261,
          Event.allocBlock 0 260, Event.bioWrite 12, Event.setCursor 0 133121,
          Event.bioWrite 11] ∧
      fsTell pastLastBlock 0 = 261 * 512 ∧
      (fsWrite cfg512 pastLastBlock 0 1 sevens).1 = cfg512.EBADFBN ∧
      Event.fbnToDbn 0 261 ∈ newEvents pastLastBlock (fsWrite cfg512 pastLastBlock 0 1 sevens).2 := by
  decide

/-- Claim C17: the cursor stays at least 0.  On an open descriptor in a state
with cursor and size at least 0, no 32-bit overflow being modelled, the cursor
is at least 0 after every `fsSeek` that returns, after every `fsRead` whatever
`numb` is, and after every `fsWrite` with `numb ≥ 0`. -/
theorem cursor_stays_nonneg (cfg : Config) (s : FS) (fd offset whence numbR numbW : Int)
    (bufR bufW : Int → Int) (hB : 0 < cfg.BYTESPERBLOCK) (hfd : OpenFd s fd)
    (hc : 0 ≤ fsTell s fd) (hs : 0 ≤ fsSize s fd) (hn : 0 ≤ numbW) :
    ((fsSeek cfg s fd offset whence).ret ≠ none →
        0 ≤ fsTell (fsSeek cfg s fd offset whence).state fd) ∧
      0 ≤ fsTell (fsRead cfg s fd numbR bufR).2.2 fd ∧
      0 ≤ fsTell (fsWrite cfg s fd numbW bufW).2 fd := by
  have hslot : s.fdOfte fd = bfsFindOFTE s (bfsFdToInum s fd) := hfd
  have hc1 : 0 ≤ s.oftCurs (bfsFindOFTE s (bfsFdToInum s fd)) := by
    rw [← hslot]; exact hc
  refine ⟨?_, ?_, ?_⟩
  · unfold fsSeek
    split_ifs with h1 h2 h3 h4
    · intro h; exact absurd rfl h
    · intro _
      simp only [Outcome.state, fsTell, bfsTell]
      rw [hslot, Function.update_same]; omega
    · intro _
      simp only [Outcome.state, fsTell, bfsTell]
      rw [hslot, Function.update_same]; omega
    · intro _
      simp only [Outcome.state, fsTell, bfsTell]
      rw [hslot, Function.update_same]; omega
    · intro h; exact absurd rfl h
  · rw [fsRead_tell cfg s fd numbR bufR hfd]
    have := (fsReadOuter_count cfg fd (bfsTell s fd) numbR (bfsFdToInum s fd)
      (cfg.MAXFBN - (bfsTell s fd).tdiv cfg.BYTESPERBLOCK).toNat s
      ((bfsTell s fd).tdiv cfg.BYTESPERBLOCK)
      (bfsTell s fd - cfg.BYTESPERBLOCK * (bfsTell s fd).tdiv cfg.BYTESPERBLOCK) 0 bufR).1
    have h0 : 0 ≤ (fsRead cfg s fd numbR bufR).1 := this
    omega
  · exact fsWriteLoop_cursor_nonneg cfg fd bufW (le_of_lt hB) _ 0 s _ numbW hfd (le_refl _) hn hc

/-- Claim C17 on the file of 100 bytes: a seek of 5 from the cursor, a read of
7 bytes and a write of 5000 bytes. -/
theorem cursor_stays_nonneg_witness :
    0 ≤ fsTell (fsSeek cfg512 file100 0 5 SEEK_CUR).state 0 ∧
      0 ≤ fsTell (fsRead cfg512 file100 0 7 zeroBuf).2.2 0 ∧
      0 ≤ fsTell (fsWrite cfg512 file100 0 5000 sevens).2 0 :=
  ⟨(cursor_stays_nonneg cfg512 file100 0 5 SEEK_CUR 7 5000 zeroBuf sevens (by decide)
      (by decide) (by decide) (by decide) (by decide)).1 (by decide),
    (cursor_stays_nonneg cfg512 file100 0 5 SEEK_CUR 7 5000 zeroBuf sevens (by decide)
      (by decide) (by decide) (by decide) (by decide)).2⟩

/-- Claim C18, the code at a failing input: on the fresh file with 512-byte
blocks, cursor 0, `fsWrite` of 5000 bytes copies 512 bytes to offset 0 of the
staging block in its first pass and 1024 bytes to offset 0 of the staging block
in its second pass, 512 more than the block holds. -/
theorem fsWrite_5000_staging_overflow :
    fsTell freshFS 0 = 0 ∧
      (newEvents freshFS (fsWrite cfg512 freshFS 0 5000 sevens).2).filter
          (fun e => match e with
            | Event.memcpy _ _ => true
            | _ => false) =
        [Event.memcpy 0 512, Event.memcpy 0 1024] ∧
      ¬ ((1024 : Int) ≤ cfg512.BYTESPERBLOCK - 0) := by
  decide

/-- Claim C19: the bounds of `fsRead`.  With `BYTESPERBLOCK > 0` and cursor
`c ≥ 0`, whatever `numb` and the size are: the copies are as many as the bytes
returned; every copy reads the staging block at an index in
`[0, BYTESPERBLOCK)` and writes the caller buffer at an index in `[0, numb)`;
the requests of the call are `bfsRead(inum, f)` for blocks `f` in
`[c / BYTESPERBLOCK, MAXFBN)`, at most `MAXFBN` of them, followed by one
`bfsSetCursor`. -/
theorem fsRead_bounds (cfg : Config) (s : FS) (fd numb : Int) (buf : Int → Int)
    (hB : 0 < cfg.BYTESPERBLOCK) (hc : 0 ≤ fsTell s fd) :
    ((fsReadIdx cfg s fd numb buf).length : Int) = (fsRead cfg s fd numb buf).1 ∧
      (∀ p ∈ fsReadIdx cfg s fd numb buf,
        0 ≤ p.1 ∧ p.1 < cfg.BYTESPERBLOCK ∧ 0 ≤ p.2 ∧ p.2 < numb) ∧
      ∃ fs : List Int,
        (fsRead cfg s fd numb buf).2.2.log =
            s.log ++ fs.map (Event.read (bfsFdToInum s fd)) ++
              [Event.setCursor (bfsFdToInum s fd) (fsTell s fd + (fsRead cfg s fd numb buf).1)] ∧
          (∀ f ∈ fs, fsTell s fd / cfg.BYTESPERBLOCK ≤ f ∧ f < cfg.MAXFBN) ∧
          fs.length ≤ cfg.MAXFBN.toNat := by
  have hc1 : 0 ≤ bfsTell s fd := hc
  have hdiv : (bfsTell s fd).tdiv cfg.BYTESPERBLOCK = bfsTell s fd / cfg.BYTESPERBLOCK :=
    Int.tdiv_eq_ediv hc1 (le_of_lt hB)
  have hq0 : 0 ≤ bfsTell s fd / cfg.BYTESPERBLOCK := Int.ediv_nonneg hc1 (le_of_lt hB)
  have hip : 0 ≤ bfsTell s fd - cfg.BYTESPERBLOCK * (bfsTell s fd).tdiv cfg.BYTESPERBLOCK := by
    rw [hdiv]
    have h1 := Int.emod_add_ediv (bfsTell s fd) cfg.BYTESPERBLOCK
    have h2 := Int.emod_nonneg (bfsTell s fd) (ne_of_gt hB)
    linarith
  obtain ⟨h1, h2, fs, h3, h4, h5⟩ := fsReadOuter_bounds cfg fd (bfsTell s fd) numb
    (bfsFdToInum s fd) (cfg.MAXFBN - (bfsTell s fd).tdiv cfg.BYTESPERBLOCK).toNat s
    ((bfsTell s fd).tdiv cfg.BYTESPERBLOCK)
    (bfsTell s fd - cfg.BYTESPERBLOCK * (bfsTell s fd).tdiv cfg.BYTESPERBLOCK) 0 buf hip
  refine ⟨?_, h2, fs, ?_, ?_, ?_⟩
  · have : (fsRead cfg s fd numb buf).1 = (fsReadOuter cfg fd (bfsTell s fd) numb
      (bfsFdToInum s fd) (cfg.MAXFBN - (bfsTell s fd).tdiv cfg.BYTESPERBLOCK).toNat s
      ((bfsTell s fd).tdiv cfg.BYTESPERBLOCK)
      (bfsTell s fd - cfg.BYTESPERBLOCK * (bfsTell s fd).tdiv cfg.BYTESPERBLOCK) 0 buf).1 := rfl
    rw [this]
    unfold fsReadIdx
    omega
  · show (bfsSetCursor _ _ _).log = _
    simp only [bfsSetCursor]
    rw [show (fsReadLoops cfg s fd numb buf).2.2.log = _ from h3]
    rfl
  · intro f hf
    have := h4 f hf
    rw [hdiv] at this
    exact this
  · rw [hdiv] at h5
    omega

/-- Claim C19 on a read that starts mid-block and crosses into the next block:
13 bytes from offset 500 of the file of 513 bytes. -/
theorem fsRead_bounds_witness :
    ((fsReadIdx cfg512 twoBlocksAt500 0 13 zeroBuf).length : Int) =
        (fsRead cfg512 twoBlocksAt500 0 13 zeroBuf).1 ∧
      (∀ p ∈ fsReadIdx cfg512 twoBlocksAt500 0 13 zeroBuf,
        0 ≤ p.1 ∧ p.1 < cfg512.BYTESPERBLOCK ∧ 0 ≤ p.2 ∧ p.2 < 13) ∧
      ∃ fs : List Int,
        (fsRead cfg512 twoBlocksAt500 0 13 zeroBuf).2.2.log =
            twoBlocksAt500.log ++ fs.map (Event.read (bfsFdToInum twoBlocksAt500 0)) ++
              [Event.setCursor (bfsFdToInum twoBlocksAt500 0)
                (fsTell twoBlocksAt500 0 + (fsRead cfg512 twoBlocksAt500 0 13 zeroBuf).1)] ∧
          (∀ f ∈ fs, fsTell twoBlocksAt500 0 / cfg512.BYTESPERBLOCK ≤ f ∧ f < cfg512.MAXFBN) ∧
          fs.length ≤ cfg512.MAXFBN.toNat :=
  fsRead_bounds cfg512 twoBlocksAt500 0 13 zeroBuf (by decide) (by decide)

set_option maxRecDepth 1000000 in
set_option maxHeartbeats 4000000 in
/-- Claim C20 fails as stated: on the file of size 2147483548 with the cursor
at 0, the sum `fsSize(fd)+1+11*BYTESPERBLOCK/30` of the inner loop overflows
`i32` (to -2147483560), the inner loop is never entered and `fsRead` of 10
bytes returns 0, although `0 ≤ c ≤ size` and the formula of the claim gives
10. -/
theorem fsReadI32_huge_size_returns_zero :
    fsTell hugeFile 0 = 0 ∧ fsSize hugeFile 0 = 2147483548 ∧
      wrapI32 (wrapI32 (fsSize hugeFile 0 + 1) + (wrapI32 (11 * cfg512.BYTESPERBLOCK)).tdiv 30) =
        -2147483560 ∧
      (fsReadI32 cfg512 hugeFile 0 10 zeroBuf).1 = 0 ∧
      max 0 (min 10
        (min (min ((fsSize hugeFile 0 / cfg512.BYTESPERBLOCK + 1) * cfg512.BYTESPERBLOCK)
            (fsSize hugeFile 0 + 11 * cfg512.BYTESPERBLOCK / 30 + 1))
          (cfg512.MAXFBN * cfg512.BYTESPERBLOCK) - fsTell hugeFile 0)) = (10 : Int) := by
  decide

/-- Claim C20 as amended, with the sums of `fsRead` made in `i32`.  With
`BYTESPERBLOCK > 0`, `11 * BYTESPERBLOCK ≤ INT_MAX`, cursor `c` and size `S`
`i32` values, and `E` the least of `(S / BYTESPERBLOCK + 1) * BYTESPERBLOCK`,
`S + 11 * BYTESPERBLOCK / 30 + 1` and `MAXFBN * BYTESPERBLOCK`: for
`0 ≤ c ≤ S`, `numb ≥ 0` and `S + 11 * BYTESPERBLOCK / 30 + 1 ≤ INT_MAX` the
call returns `max 0 (min numb (E - c))`, and for `c > S` it returns 0. -/
theorem fsReadI32_exact_count (cfg : Config) (s : FS) (fd numb : Int) (buf : Int → Int)
    (hB : 0 < cfg.BYTESPERBLOCK) (hB32 : 11 * cfg.BYTESPERBLOCK ≤ INT_MAX)
    (hS : INT_MIN ≤ fsSize s fd) (hc : fsTell s fd ≤ INT_MAX) :
    (0 ≤ fsTell s fd → fsTell s fd ≤ fsSize s fd → 0 ≤ numb →
        fsSize s fd + 11 * cfg.BYTESPERBLOCK / 30 + 1 ≤ INT_MAX →
        (fsReadI32 cfg s fd numb buf).1 =
          max 0 (min numb
            (min (min ((fsSize s fd / cfg.BYTESPERBLOCK + 1) * cfg.BYTESPERBLOCK)
                (fsSize s fd + 11 * cfg.BYTESPERBLOCK / 30 + 1))
              (cfg.MAXFBN * cfg.BYTESPERBLOCK) - fsTell s fd))) ∧
      (fsSize s fd < fsTell s fd → (fsReadI32 cfg s fd numb buf).1 = 0) := by
  refine ⟨?_, ?_⟩
  · intro hc0 hcs hn hfit
    have hslack : (11 * cfg.BYTESPERBLOCK).tdiv 30 = 11 * cfg.BYTESPERBLOCK / 30 :=
      Int.tdiv_eq_ediv (by omega) (by omega)
    have hc1 : INT_MIN ≤ bfsTell s fd := le_trans (by decide) hc0
    rw [fsReadI32_eq cfg s fd numb buf hB hB32 hS hc1 hc (by rw [hslack]; omega)]
    exact (fsRead_exact_count cfg s fd numb buf hB).1 hc0 hcs hn
  · intro hgt
    exact fsReadI32_past_size cfg s fd numb buf hS hc hgt

/-- Claim C20 as amended, on the file of 100 bytes: 1000 bytes asked at offset
0 (the call returns 288), and 10 bytes asked at offset 150, past the size. -/
theorem fsReadI32_exact_count_witness :
    (0 < cfg512.BYTESPERBLOCK ∧ 11 * cfg512.BYTESPERBLOCK ≤ INT_MAX) ∧
      (INT_MIN ≤ fsSize file100AtStart 0 ∧ fsTell file100AtStart 0 ≤ INT_MAX) ∧
      (0 ≤ fsTell file100AtStart 0 ∧ fsTell file100AtStart 0 ≤ fsSize file100AtStart 0 ∧
        fsSize file100AtStart 0 + 11 * cfg512.BYTESPERBLOCK / 30 + 1 ≤ INT_MAX) ∧
      (fsReadI32 cfg512 file100AtStart 0 1000 zeroBuf).1 =
        max 0 (min 1000
          (min (min ((fsSize file100AtStart 0 / cfg512.BYTESPERBLOCK + 1) * cfg512.BYTESPERBLOCK)
              (fsSize file100AtStart 0 + 11 * cfg512.BYTESPERBLOCK / 30 + 1))
            (cfg512.MAXFBN * cfg512.BYTESPERBLOCK) - fsTell file100AtStart 0)) ∧
      fsSize file100At150 0 < fsTell file100At150 0 ∧
      (fsReadI32 cfg512 file100At150 0 10 zeroBuf).1 = 0 :=
  ⟨⟨by decide, by decide⟩, ⟨by decide, by decide⟩, ⟨by decide, by decide, by decide⟩,
    (fsReadI32_exact_count cfg512 file100AtStart 0 1000 zeroBuf (by decide) (by decide)
      (by decide) (by decide)).1 (by decide) (by decide) (by decide) (by decide),
    by decide,
    (fsReadI32_exact_count cfg512 file100At150 0 10 zeroBuf (by decide) (by decide)
      (by decide) (by decide)).2 (by decide)⟩

end BFS
